import Mathlib

/-!
Verification of the concurrent batch download engine of the
Gores-Map-Downloader repository (src/src/app/downloads.rs,
src/src/app/thumbnails.rs, src/src/types.rs, src/src/app/mod.rs,
src/src/main.rs) against its natural-language specification.

The Rust code is shallowly embedded: the shared mutex-guarded
`DownloadState` becomes an explicit record, each locked critical section
of the worker `download_map` becomes one atomic mutation (`Mut`), the
worker itself becomes the list of mutations it performs given an
environment describing the network and filesystem responses, and the
Tokio task pool with its counting semaphore becomes a small-step
transition system interleaving worker mutations under a permit bound.
Machine integers: `usize` counters are `Nat` (the code only decrements
counters it previously incremented); `u64` byte totals are `Nat` reduced
modulo `2 ^ 64` at each addition, exactly where Rust release-mode
wrapping applies.
-/

namespace GoresDL

/-- Modulus of Rust u64 arithmetic. -/
def u64Mod : Nat := 2 ^ 64

/-- Download status for individual map downloads (src/src/types.rs,
`enum DownloadStatus`).  `Downloading (dl, tot)` carries
(downloaded_bytes, total_bytes). -/
inductive DownloadStatus where
  | Pending
  | Downloading (dl tot : Nat)
  | Complete
  | Skipped
  | Cancelled
  | Failed (reason : String)
deriving DecidableEq

/-- Terminal statuses: Complete, Skipped, Cancelled, Failed. -/
def DownloadStatus.isTerminal : DownloadStatus → Bool
  | .Complete => true
  | .Skipped => true
  | .Cancelled => true
  | .Failed _ => true
  | _ => false

/-- The `HashMap<usize, DownloadStatus>` of the code, as an association
list with unique keys. -/
abbrev StatusMap := List (Nat × DownloadStatus)

/-- Lookup in the status map (`HashMap::get`). -/
def mapGet (m : StatusMap) (k : Nat) : Option DownloadStatus :=
  (m.find? (fun p => p.1 == k)).map Prod.snd

/-- Insert-or-replace in the status map (`HashMap::insert`). -/
def mapInsert (m : StatusMap) (k : Nat) (v : DownloadStatus) : StatusMap :=
  (k, v) :: m.filter (fun p => p.1 != k)

/-- State tracking for batch downloads (src/src/types.rs,
`struct DownloadState`). -/
structure DownloadState where
  downloads : StatusMap
  download_order : List Nat
  active_count : Nat
  total_queued : Nat
  completed_count : Nat
  failed_count : Nat
  skipped_count : Nat
  cancelled_count : Nat
  total_bytes : Nat
  downloaded_bytes : Nat
deriving DecidableEq

/-- `DownloadState::default()` (src/src/types.rs). -/
def DownloadState.initial : DownloadState :=
  { downloads := [], download_order := [], active_count := 0, total_queued := 0,
    completed_count := 0, failed_count := 0, skipped_count := 0,
    cancelled_count := 0, total_bytes := 0, downloaded_bytes := 0 }

/-- One task descriptor: the tuple
`(idx, url, dest, map_size, skip_existing)` passed to `download_map`
(src/src/app/downloads.rs).  `map_size` is the catalog-declared size as
its u64 value. -/
structure TaskDesc where
  idx : Nat
  url : String
  dest : String
  map_size : Nat
  skip_existing : Bool
deriving DecidableEq

/-- One atomic locked critical section executed by the worker
`download_map` on the shared `DownloadState`
(src/src/app/downloads.rs lines 24-122).  Each constructor corresponds
to exactly one `state.lock()` block. -/
inductive Mut where
  | cancelIfPending (idx : Nat)
  | skip (idx : Nat) (size : Nat)
  | startDownloading (idx : Nat)
  | progress (idx : Nat) (dl tot : Nat)
  | cancelMid (idx : Nat)
  | failTerm (idx : Nat) (msg : String)
  | complete (idx : Nat) (size : Nat)
deriving DecidableEq

/-- The id whose status a mutation writes. -/
def Mut.key : Mut → Nat
  | .cancelIfPending idx => idx
  | .skip idx _ => idx
  | .startDownloading idx => idx
  | .progress idx _ _ => idx
  | .cancelMid idx => idx
  | .failTerm idx _ => idx
  | .complete idx _ => idx

/-- Effect of one locked critical section on the shared state, exactly
as in src/src/app/downloads.rs:
cancelIfPending = lines 25-29, skip = 35-38, startDownloading = 44-46,
progress = 75-76, cancelMid = 63-66, failTerm = 84-87 / 104-107 /
111-114 / 117-120, complete = 98-102. -/
def applyMut : Mut → DownloadState → DownloadState
  | .cancelIfPending idx, s =>
      if mapGet s.downloads idx = some .Pending then
        { s with downloads := mapInsert s.downloads idx .Cancelled,
                 cancelled_count := s.cancelled_count + 1 }
      else s
  | .skip idx size, s =>
      { s with downloads := mapInsert s.downloads idx .Skipped,
               skipped_count := s.skipped_count + 1,
               downloaded_bytes := (s.downloaded_bytes + size) % u64Mod }
  | .startDownloading idx, s =>
      { s with downloads := mapInsert s.downloads idx (.Downloading 0 0),
               active_count := s.active_count + 1 }
  | .progress idx dl tot, s =>
      { s with downloads := mapInsert s.downloads idx (.Downloading dl tot) }
  | .cancelMid idx, s =>
      { s with downloads := mapInsert s.downloads idx .Cancelled,
               cancelled_count := s.cancelled_count + 1,
               active_count := s.active_count - 1 }
  | .failTerm idx msg, s =>
      { s with downloads := mapInsert s.downloads idx (.Failed msg),
               failed_count := s.failed_count + 1,
               active_count := s.active_count - 1 }
  | .complete idx size, s =>
      { s with downloads := mapInsert s.downloads idx .Complete,
               completed_count := s.completed_count + 1,
               active_count := s.active_count - 1,
               downloaded_bytes := (s.downloaded_bytes + size) % u64Mod }

/-- One event observed by the `tokio::select!` loop of the worker
(src/src/app/downloads.rs lines 60-95): either the cancellation token
fires, or the next chunk arrives (with its byte length), or a chunk
read error occurs; the end of the list is `None` (stream complete). -/
inductive StreamEvent where
  | cancelled
  | chunk (len : Nat)
  | chunkErr (msg : String)
deriving DecidableEq

/-- Outcome of `client.get(&url).send().await`: a connection error, or a
response with status code, `content_length().unwrap_or(0)`, the stream
events, and whether the final `std::fs::write` would succeed. -/
inductive HttpOutcome where
  | sendErr (msg : String)
  | response (code : Nat) (contentLength : Nat) (events : List StreamEvent)
      (writeOk : Bool)
deriving DecidableEq

/-- Environment of one worker run: whether the cancellation token was
already raised at entry, whether `dest.exists()`, and the HTTP
outcome. -/
structure WorkerEnv where
  tokenCancelledAtStart : Bool
  destExists : Bool
  http : HttpOutcome
deriving DecidableEq

/-- Status test `response.status().is_success()`: the 2xx range. -/
def isSuccessCode (code : Nat) : Bool :=
  200 ≤ code && code < 300

/-- Canonical reason phrase of an HTTP status code, as returned by
`StatusCode::canonical_reason` in the http crate used by reqwest. -/
def canonicalReason (code : Nat) : Option String :=
  match code with
  | 100 => some "Continue"
  | 101 => some "Switching Protocols"
  | 102 => some "Processing"
  | 200 => some "OK"
  | 201 => some "Created"
  | 202 => some "Accepted"
  | 203 => some "Non Authoritative Information"
  | 204 => some "No Content"
  | 205 => some "Reset Content"
  | 206 => some "Partial Content"
  | 207 => some "Multi-Status"
  | 208 => some "Already Reported"
  | 226 => some "IM Used"
  | 300 => some "Multiple Choices"
  | 301 => some "Moved Permanently"
  | 302 => some "Found"
  | 303 => some "See Other"
  | 304 => some "Not Modified"
  | 305 => some "Use Proxy"
  | 307 => some "Temporary Redirect"
  | 308 => some "Permanent Redirect"
  | 400 => some "Bad Request"
  | 401 => some "Unauthorized"
  | 402 => some "Payment Required"
  | 403 => some "Forbidden"
  | 404 => some "Not Found"
  | 405 => some "Method Not Allowed"
  | 406 => some "Not Acceptable"
  | 407 => some "Proxy Authentication Required"
  | 408 => some "Request Timeout"
  | 409 => some "Conflict"
  | 410 => some "Gone"
  | 411 => some "Length Required"
  | 412 => some "Precondition Failed"
  | 413 => some "Payload Too Large"
  | 414 => some "URI Too Long"
  | 415 => some "Unsupported Media Type"
  | 416 => some "Range Not Satisfiable"
  | 417 => some "Expectation Failed"
  | 418 => some "I\x27m a teapot"
  | 421 => some "Misdirected Request"
  | 422 => some "Unprocessable Entity"
  | 423 => some "Locked"
  | 424 => some "Failed Dependency"
  | 426 => some "Upgrade Required"
  | 428 => some "Precondition Required"
  | 429 => some "Too Many Requests"
  | 431 => some "Request Header Fields Too Large"
  | 451 => some "Unavailable For Legal Reasons"
  | 500 => some "Internal Server Error"
  | 501 => some "Not Implemented"
  | 502 => some "Bad Gateway"
  | 503 => some "Service Unavailable"
  | 504 => some "Gateway Timeout"
  | 505 => some "HTTP Version Not Supported"
  | 506 => some "Variant Also Negotiates"
  | 507 => some "Insufficient Storage"
  | 508 => some "Loop Detected"
  | 510 => some "Not Extended"
  | 511 => some "Network Authentication Required"
  | _ => none

/-- The `Display` rendering of a `StatusCode` used by
`format!("HTTP {}", response.status())`: the numeric code, a space, and
the canonical reason phrase. -/
def statusDisplay (code : Nat) : String :=
  toString code ++ " " ++ (canonicalReason code).getD "<unknown status code>"

/-- Mutations produced by the select loop of src/src/app/downloads.rs
lines 60-95, given bytes already accumulated (`downloaded`). The loop
stops at the first `cancelled` or `chunkErr` event; the end of the list
is the `None => break` arm. -/
def streamMuts (idx cl : Nat) (downloaded : Nat) : List StreamEvent → List Mut
  | [] => []
  | .cancelled :: _ => [.cancelMid idx]
  | .chunk len :: rest =>
      .progress idx ((downloaded + len) % u64Mod) cl ::
        streamMuts idx cl ((downloaded + len) % u64Mod) rest
  | .chunkErr msg :: _ => [.failTerm idx msg]

/-- Whether the select loop reaches the `None => break` arm (stream
fully read with no cancellation and no chunk error). -/
def streamCompleted : List StreamEvent → Bool
  | [] => true
  | .chunk _ :: rest => streamCompleted rest
  | .cancelled :: _ => false
  | .chunkErr _ :: _ => false

/-- Total number of body bytes accumulated in `bytes_vec` when the
stream completes. -/
def streamBytes : List StreamEvent → Nat
  | [] => 0
  | .chunk len :: rest => len + streamBytes rest
  | .cancelled :: _ => 0
  | .chunkErr _ :: _ => 0

/-- The first non-chunk event of the stream, if any: what makes the
select loop return early. -/
def firstBreak : List StreamEvent → Option StreamEvent
  | [] => none
  | .chunk _ :: rest => firstBreak rest
  | e :: _ => some e

/-- The ordered list of locked critical sections performed by one run of
the worker `download_map` (src/src/app/downloads.rs lines 13-124) in the
given environment. -/
def workerMuts (t : TaskDesc) (env : WorkerEnv) : List Mut :=
  if env.tokenCancelledAtStart then [.cancelIfPending t.idx]
  else if t.skip_existing && env.destExists then [.skip t.idx t.map_size]
  else
    .startDownloading t.idx ::
      match env.http with
      | .sendErr msg => [.failTerm t.idx msg]
      | .response code cl events writeOk =>
          if isSuccessCode code then
            streamMuts t.idx cl 0 events ++
              (if streamCompleted events then
                 (if writeOk then [.complete t.idx t.map_size]
                  else [.failTerm t.idx "Write failed"])
               else [])
          else [.failTerm t.idx ("HTTP " ++ statusDisplay code)]

/-- Externally visible side effects of one worker run: whether an HTTP
GET was issued, and the single `std::fs::write(&dest, &bytes_vec)`
attempt (destination path and buffer length), if reached. -/
structure WorkerEffects where
  networkRequested : Bool
  fileWrite : Option (String × Nat)
deriving DecidableEq

/-- Side effects of `download_map` in the given environment.  The
`fs::write` call is reached only on the `None => break` path, after the
whole body has been buffered. -/
def workerEffects (t : TaskDesc) (env : WorkerEnv) : WorkerEffects :=
  if env.tokenCancelledAtStart then ⟨false, none⟩
  else if t.skip_existing && env.destExists then ⟨false, none⟩
  else
    ⟨true,
      match env.http with
      | .sendErr _ => none
      | .response code _ events _ =>
          if isSuccessCode code then
            (if streamCompleted events then some (t.dest, streamBytes events)
             else none)
          else none⟩

/-- Sequential application of a list of locked critical sections. -/
def foldMuts (l : List Mut) (s : DownloadState) : DownloadState :=
  l.foldl (fun st m => applyMut m st) s

/-- Net effect of one worker run on the shared `DownloadState`: the
sequential composition of its locked critical sections. -/
def download_map (t : TaskDesc) (env : WorkerEnv) (s : DownloadState) :
    DownloadState :=
  foldMuts (workerMuts t env) s

/-- Base URL for map files (src/src/constants.rs, `MAPS_BASE_URL`). -/
def MAPS_BASE_URL : String :=
  "https://raw.githubusercontent.com/wtfseanscool/kog-maps/main"

/-- Catalog entry fields used by the download engine
(src/src/db.rs, `struct Map`): name, category, stars, size (as its u64
value after the `as u64` cast). -/
structure MapEntry where
  name : String
  category : String
  stars : Int
  size : Nat
deriving DecidableEq

/-- URL construction `App::get_map_url` (src/src/app/mod.rs lines
361-366). -/
def get_map_url (m : MapEntry) : String :=
  MAPS_BASE_URL ++ "/" ++ m.category ++ "/" ++ toString m.stars ++ "star/"
    ++ m.name ++ ".map"

/-- The fields of `App` read and written by `download_selected` and
`retry_failed_downloads` (src/src/app/mod.rs): the catalog,
the iteration order of `selected_indices`, the download directory, and
the shared download state. -/
structure AppModel where
  maps : List MapEntry
  selected_indices : List Nat
  download_path : String
  download_state : DownloadState
deriving DecidableEq

/-- Destination path `download_path.join(format!("{}.map", map.name))`. -/
def destPath (downloadPath name : String) : String :=
  downloadPath ++ "/" ++ name ++ ".map"

/-- Batch construction of `download_selected`
(src/src/app/downloads.rs lines 167-175): selected indices resolved
against the catalog, with `skip_existing = true`. -/
def buildBatch (app : AppModel) : List TaskDesc :=
  app.selected_indices.filterMap (fun idx =>
    (app.maps.get? idx).map (fun m =>
      ⟨idx, get_map_url m, destPath app.download_path m.name, m.size, true⟩))

/-- The insertion loop of src/src/app/downloads.rs lines 192-194 (and
230-232): insert `Pending` for every id of the batch. -/
def insertPendingAll (batch : List TaskDesc) (s : DownloadState) :
    DownloadState :=
  batch.foldl (fun st t =>
    { st with downloads := mapInsert st.downloads t.idx .Pending }) s

/-- The state-initialization block of `download_selected`
(src/src/app/downloads.rs lines 182-195): counters other than
`active_count` are reset, totals and order are set from the batch, and
each batch id is inserted as `Pending`; pre-existing map entries for
other ids are not removed. -/
def initState (batch : List TaskDesc) (s : DownloadState) : DownloadState :=
  insertPendingAll batch
    { s with
      total_queued := batch.length,
      completed_count := 0,
      failed_count := 0,
      skipped_count := 0,
      cancelled_count := 0,
      total_bytes := (batch.map TaskDesc.map_size).sum % u64Mod,
      downloaded_bytes := 0,
      download_order := batch.map TaskDesc.idx }

/-- `App::download_selected` (src/src/app/downloads.rs lines 159-200).
Returns the updated app, the batch handed to `spawn_download_batch`, and
whether a fresh cancellation token was created and installed. -/
def download_selected (app : AppModel) :
    AppModel × List TaskDesc × Bool :=
  if app.selected_indices.isEmpty then (app, [], false)
  else
    let batch := buildBatch app
    ({ app with download_state := initState batch app.download_state },
     batch, true)

/-- The guard `matches!(s.downloads.get(&idx), Some(DownloadStatus::Failed(_)))`
of src/src/app/downloads.rs line 208. -/
def isFailedOpt : Option DownloadStatus → Bool
  | some (.Failed _) => true
  | _ => false

/-- Retry sub-batch construction of `retry_failed_downloads`
(src/src/app/downloads.rs lines 203-218): scan `download_order`, keep
ids whose status is `Failed` and which resolve in the catalog, and
rebuild descriptors with `skip_existing = false`. -/
def buildRetryBatch (app : AppModel) : List TaskDesc :=
  app.download_state.download_order.filterMap (fun idx =>
    if isFailedOpt (mapGet app.download_state.downloads idx) then
      (app.maps.get? idx).map (fun m =>
        ⟨idx, get_map_url m, destPath app.download_path m.name, m.size,
         false⟩)
    else none)

/-- `App::retry_failed_downloads` (src/src/app/downloads.rs lines
202-236).  Returns the updated app, the resubmitted sub-batch, and
whether a fresh cancellation token was created and installed. -/
def retry_failed_downloads (app : AppModel) :
    AppModel × List TaskDesc × Bool :=
  if (buildRetryBatch app).isEmpty then (app, [], false)
  else
    ({ app with
        download_state :=
          insertPendingAll (buildRetryBatch app)
            { app.download_state with failed_count := 0 } },
     buildRetryBatch app, true)

/-- Number of permits of the semaphore created in `spawn_download_batch`
(src/src/app/downloads.rs line 135, `Semaphore::new(4)`). -/
def downloadConcurrencyLimit : Nat := 4

/-- Number of permits of the semaphore created in
`start_thumbnail_prefetch` (src/src/app/thumbnails.rs line 19,
`Semaphore::new(8)`). -/
def thumbnailConcurrencyLimit : Nat := 8

/-- Cached thumbnail path
`cache_dir.join("thumbnails").join(format!("{}.png", name))`
(src/src/app/thumbnails.rs lines 21, 27). -/
def thumbPath (cacheDir name : String) : String :=
  cacheDir ++ "/thumbnails/" ++ name ++ ".png"

/-- Names for which `start_thumbnail_prefetch` spawns a fetch task
(src/src/app/thumbnails.rs lines 26-48): names whose thumbnail file does
not already exist are kept; `continue` skips the rest. -/
def prefetchTasks (mapNames : List String) (fileExists : String → Bool)
    (cacheDir : String) : List String :=
  mapNames.filter (fun name => !(fileExists (thumbPath cacheDir name)))

/-- Outcome of one thumbnail fetch: `none` if `send()` failed, otherwise
the status code and the result of `bytes()` (its length when it
succeeds). -/
structure ThumbEnv where
  sendResult : Option (Nat × Option Nat)
deriving DecidableEq

/-- The cache write performed by one spawned thumbnail task
(src/src/app/thumbnails.rs lines 39-45): `fs::write` is reached only
when the response arrived, its status is 2xx, and the body was read. -/
def thumbFetchWrite (cacheDir name : String) (env : ThumbEnv) :
    Option (String × Nat) :=
  match env.sendResult with
  | none => none
  | some (code, bytesResult) =>
      if isSuccessCode code then
        match bytesResult with
        | some len => some (thumbPath cacheDir name, len)
        | none => none
      else none

/-- Boolean test for the `Pending` status. -/
def DownloadStatus.isPending : DownloadStatus → Bool
  | .Pending => true
  | _ => false

/-- Boolean test for the `Downloading` status. -/
def DownloadStatus.isDownloading : DownloadStatus → Bool
  | .Downloading _ _ => true
  | _ => false

/-- Boolean test for the `Complete` status. -/
def DownloadStatus.isComplete : DownloadStatus → Bool
  | .Complete => true
  | _ => false

/-- Boolean test for the `Skipped` status. -/
def DownloadStatus.isSkipped : DownloadStatus → Bool
  | .Skipped => true
  | _ => false

/-- Boolean test for the `Cancelled` status. -/
def DownloadStatus.isCancelled : DownloadStatus → Bool
  | .Cancelled => true
  | _ => false

/-- Boolean test for the `Failed` status. -/
def DownloadStatus.isFailed : DownloadStatus → Bool
  | .Failed _ => true
  | _ => false

/-- Scheduling phase of one spawned worker task: not yet holding a
semaphore permit, holding a permit and executing `download_map`, or
finished (permit released). -/
inductive WPhase where
  | notStarted
  | running
  | done
deriving DecidableEq

/-- Boolean test for the running phase. -/
def WPhase.isRunning : WPhase → Bool
  | .running => true
  | _ => false

/-- One spawned worker unit of `spawn_download_batch`
(src/src/app/downloads.rs lines 139-150): its task, the locked critical
sections it has not yet executed, and its scheduling phase. -/
structure WorkerSt where
  task : TaskDesc
  muts : List Mut
  phase : WPhase
deriving DecidableEq

/-- State of the whole spawned batch: the worker units, the number of
free semaphore permits, and the shared mutex-guarded `DownloadState`. -/
structure SysState where
  workers : List WorkerSt
  sem : Nat
  shared : DownloadState
deriving DecidableEq

/-- Number of workers currently holding a permit. -/
def countRunning (ws : List WorkerSt) : Nat :=
  (ws.filter (fun w => w.phase.isRunning)).length

/-- Interleaving semantics of the spawned batch.  `acquire` is
`sem.acquire().await` succeeding (one permit taken, the whole of
`download_map` runs while it is held); `mut` executes the worker's next
locked critical section on the shared state; `finish` is the worker
returning and dropping its permit. -/
inductive SysStep : SysState → SysState → Prop where
  | acquire (l₁ l₂ : List WorkerSt) (w : WorkerSt) (sem : Nat)
      (sh : DownloadState) :
      w.phase = .notStarted → 0 < sem →
      SysStep ⟨l₁ ++ w :: l₂, sem, sh⟩
        ⟨l₁ ++ { w with phase := .running } :: l₂, sem - 1, sh⟩
  | mutate (l₁ l₂ : List WorkerSt) (w : WorkerSt) (m : Mut) (rest : List Mut)
      (sem : Nat) (sh : DownloadState) :
      w.phase = .running → w.muts = m :: rest →
      SysStep ⟨l₁ ++ w :: l₂, sem, sh⟩
        ⟨l₁ ++ { w with muts := rest } :: l₂, sem, applyMut m sh⟩
  | finish (l₁ l₂ : List WorkerSt) (w : WorkerSt) (sem : Nat)
      (sh : DownloadState) :
      w.phase = .running → w.muts = [] →
      SysStep ⟨l₁ ++ w :: l₂, sem, sh⟩
        ⟨l₁ ++ { w with phase := .done } :: l₂, sem + 1, sh⟩

/-- Initial state of a spawned batch (src/src/app/downloads.rs lines
127-156): one worker per task, each with its full mutation trace, all
permits free, the shared state freshly initialized by
`download_selected`. -/
def sysInit (limit : Nat) (batch : List TaskDesc) (envs : List WorkerEnv)
    (s0 : DownloadState) : SysState :=
  { workers := (batch.zip envs).map
      (fun p => ⟨p.1, workerMuts p.1 p.2, .notStarted⟩),
    sem := limit,
    shared := initState batch s0 }

/-- Reachability in the interleaving semantics. -/
inductive SysReach (start : SysState) : SysState → Prop where
  | refl : SysReach start start
  | step {st st2 : SysState} : SysReach start st → SysStep st st2 →
      SysReach start st2

/-- Status of the mutation's own id after the mutation runs, given the
status before. -/
def Mut.statusAfter : Mut → DownloadStatus → DownloadStatus
  | .cancelIfPending _, cur => if cur = .Pending then .Cancelled else cur
  | .skip _ _, _ => .Skipped
  | .startDownloading _, _ => .Downloading 0 0
  | .progress _ dl tot, _ => .Downloading dl tot
  | .cancelMid _, _ => .Cancelled
  | .failTerm _ msg, _ => .Failed msg
  | .complete _ _, _ => .Complete

/-- Status precondition under which the worker's control flow reaches
each critical section. -/
def Mut.pre : Mut → DownloadStatus → Prop
  | .cancelIfPending _, _ => True
  | .skip _ _, cur => cur = .Pending
  | .startDownloading _, cur => cur = .Pending
  | .progress _ _ _, cur => cur.isDownloading = true
  | .cancelMid _, cur => cur.isDownloading = true
  | .failTerm _ _, cur => cur.isDownloading = true
  | .complete _ _, cur => cur.isDownloading = true

/-- The byte amount a mutation attributes to `downloaded_bytes` is the
task's declared size (the code always passes `map_size`). -/
def Mut.sizeOk : Mut → TaskDesc → Prop
  | .skip _ size, t => size = t.map_size
  | .complete _ size, t => size = t.map_size
  | _, _ => True

/-- A remaining mutation trace is coherent for task `t` from the current
status of its id: every mutation writes id `t.idx` with the task's
declared size and fires from a status satisfying its precondition, and
the trace ends with the status terminal. -/
inductive OkCont (t : TaskDesc) : DownloadStatus → List Mut → Prop where
  | nil {cur : DownloadStatus} : cur.isTerminal = true → OkCont t cur []
  | cons {cur : DownloadStatus} {m : Mut} {r : List Mut} :
      m.key = t.idx → m.sizeOk t → m.pre cur →
      OkCont t (m.statusAfter cur) r → OkCont t cur (m :: r)

/-- The per-task status transitions named by the specification:
`Pending` to `Cancelled`, `Skipped` or `Downloading`; `Downloading` to
`Downloading` (progress); `Downloading` to a terminal state. -/
inductive AllowedTransition : DownloadStatus → DownloadStatus → Prop where
  | pendingCancelled : AllowedTransition .Pending .Cancelled
  | pendingSkipped : AllowedTransition .Pending .Skipped
  | pendingDownloading (dl tot : Nat) :
      AllowedTransition .Pending (.Downloading dl tot)
  | progress (a b c d : Nat) :
      AllowedTransition (.Downloading a b) (.Downloading c d)
  | downloadingTerminal (a b : Nat) (t : DownloadStatus) :
      t.isTerminal = true → AllowedTransition (.Downloading a b) t

theorem find?_filter_of_imp {α : Type} (p q : α → Bool) (l : List α)
    (himp : ∀ x, p x = true → q x = true) :
    (l.filter q).find? p = l.find? p := by
  induction l with
  | nil => rfl
  | cons a l ih =>
    simp only [List.filter_cons]
    by_cases hq : q a = true
    · rw [if_pos hq]
      by_cases hp : p a = true
      · rw [List.find?_cons_of_pos _ hp, List.find?_cons_of_pos _ hp]
      · rw [List.find?_cons_of_neg _ hp, List.find?_cons_of_neg _ hp, ih]
    · have hp : ¬ p a = true := fun h => hq (himp a h)
      rw [if_neg hq, ih, List.find?_cons_of_neg _ hp]

theorem mapGet_insert_self (m : StatusMap) (k : Nat) (v : DownloadStatus) :
    mapGet (mapInsert m k v) k = some v := by
  unfold mapGet mapInsert
  rw [List.find?_cons_of_pos]
  · rfl
  · simp

theorem mapGet_insert_ne (m : StatusMap) (k j : Nat) (v : DownloadStatus)
    (h : j ≠ k) :
    mapGet (mapInsert m k v) j = mapGet m j := by
  unfold mapGet mapInsert
  rw [List.find?_cons_of_neg, find?_filter_of_imp]
  · intro x hx
    simp only [beq_iff_eq] at hx
    simp [bne_iff_ne, hx, h]
  · simp [beq_iff_eq]
    exact fun hk => absurd hk.symm h

theorem applyMut_frame (m : Mut) (s : DownloadState) :
    (applyMut m s).download_order = s.download_order ∧
    (applyMut m s).total_queued = s.total_queued ∧
    (applyMut m s).total_bytes = s.total_bytes := by
  cases m with
  | cancelIfPending idx =>
      by_cases h : mapGet s.downloads idx = some .Pending
      · simp [applyMut, h]
      · simp [applyMut, h]
  | skip idx size => exact ⟨rfl, rfl, rfl⟩
  | startDownloading idx => exact ⟨rfl, rfl, rfl⟩
  | progress idx dl tot => exact ⟨rfl, rfl, rfl⟩
  | cancelMid idx => exact ⟨rfl, rfl, rfl⟩
  | failTerm idx msg => exact ⟨rfl, rfl, rfl⟩
  | complete idx size => exact ⟨rfl, rfl, rfl⟩

theorem mapGet_applyMut_key {m : Mut} {s : DownloadState}
    {cur : DownloadStatus} (h : mapGet s.downloads m.key = some cur) :
    mapGet (applyMut m s).downloads m.key = some (m.statusAfter cur) := by
  cases m with
  | cancelIfPending idx =>
      simp only [Mut.key] at h
      by_cases hp : cur = .Pending
      · subst hp
        simp only [applyMut, Mut.key, Mut.statusAfter, if_pos h, reduceIte]
        exact mapGet_insert_self ..
      · have hcond : ¬ mapGet s.downloads idx = some .Pending := by
          rw [h]
          intro hc
          exact hp (Option.some.inj hc)
        simp only [applyMut, Mut.key, Mut.statusAfter, if_neg hcond,
          if_neg hp]
        exact h
  | skip idx size => exact mapGet_insert_self ..
  | startDownloading idx => exact mapGet_insert_self ..
  | progress idx dl tot => exact mapGet_insert_self ..
  | cancelMid idx => exact mapGet_insert_self ..
  | failTerm idx msg => exact mapGet_insert_self ..
  | complete idx size => exact mapGet_insert_self ..

theorem mapGet_applyMut_ne (m : Mut) (s : DownloadState) (j : Nat)
    (hj : j ≠ m.key) :
    mapGet (applyMut m s).downloads j = mapGet s.downloads j := by
  cases m with
  | cancelIfPending idx =>
      simp only [Mut.key] at hj
      by_cases h : mapGet s.downloads idx = some .Pending
      · simp only [applyMut, if_pos h]
        exact mapGet_insert_ne _ _ _ _ hj
      · simp only [applyMut, if_neg h]
  | skip idx size => exact mapGet_insert_ne _ _ _ _ hj
  | startDownloading idx => exact mapGet_insert_ne _ _ _ _ hj
  | progress idx dl tot => exact mapGet_insert_ne _ _ _ _ hj
  | cancelMid idx => exact mapGet_insert_ne _ _ _ _ hj
  | failTerm idx msg => exact mapGet_insert_ne _ _ _ _ hj
  | complete idx size => exact mapGet_insert_ne _ _ _ _ hj

theorem okCont_stream (t : TaskDesc) (cl : Nat) (tail : List Mut)
    (htail : ∀ dl tot, OkCont t (.Downloading dl tot) tail) :
    ∀ (events : List StreamEvent) (a b dl : Nat),
      OkCont t (.Downloading a b)
        (streamMuts t.idx cl dl events ++
          (if streamCompleted events then tail else [])) := by
  intro events
  induction events with
  | nil =>
      intro a b dl
      simpa [streamMuts, streamCompleted] using htail a b
  | cons e rest ih =>
      intro a b dl
      cases e with
      | cancelled =>
          simp only [streamMuts, streamCompleted, Bool.false_eq_true,
            if_false, List.cons_append, List.nil_append]
          exact OkCont.cons rfl trivial
            (by simp [Mut.pre, DownloadStatus.isDownloading]) (OkCont.nil rfl)
      | chunk len =>
          simp only [streamMuts, streamCompleted, List.cons_append]
          exact OkCont.cons rfl trivial
            (by simp [Mut.pre, DownloadStatus.isDownloading]) (ih _ _ _)
      | chunkErr msg =>
          simp only [streamMuts, streamCompleted, Bool.false_eq_true,
            if_false, List.cons_append, List.nil_append]
          exact OkCont.cons rfl trivial
            (by simp [Mut.pre, DownloadStatus.isDownloading]) (OkCont.nil rfl)

theorem okCont_workerMuts (t : TaskDesc) (env : WorkerEnv) :
    OkCont t .Pending (workerMuts t env) := by
  unfold workerMuts
  by_cases h1 : env.tokenCancelledAtStart
  · rw [if_pos h1]
    refine OkCont.cons rfl trivial trivial ?_
    simp only [Mut.statusAfter, reduceIte]
    exact OkCont.nil rfl
  · rw [if_neg h1]
    by_cases h2 : t.skip_existing && env.destExists
    · rw [if_pos h2]
      exact OkCont.cons rfl rfl rfl (OkCont.nil rfl)
    · rw [if_neg h2]
      refine OkCont.cons rfl trivial rfl ?_
      simp only [Mut.statusAfter]
      cases henv : env.http with
      | sendErr msg =>
          exact OkCont.cons rfl trivial rfl (OkCont.nil rfl)
      | response code cl events writeOk =>
          dsimp only
          by_cases hc : isSuccessCode code = true
          · rw [if_pos hc]
            refine okCont_stream t cl _ ?_ events 0 0 0
            intro dl tot
            cases writeOk with
            | true =>
                simp only [reduceIte]
                exact OkCont.cons rfl rfl rfl (OkCont.nil rfl)
            | false =>
                simp only [Bool.false_eq_true, if_false]
                exact OkCont.cons rfl trivial rfl (OkCont.nil rfl)
          · rw [if_neg hc]
            exact OkCont.cons rfl trivial rfl (OkCont.nil rfl)

/-- Number of ids in `order` whose current status satisfies `p`. -/
def cnt (m : StatusMap) (order : List Nat) (p : DownloadStatus → Bool) : Nat :=
  order.countP (fun id =>
    match mapGet m id with
    | some st => p st
    | none => false)

theorem cnt_congr {mNew mOld : StatusMap} {order : List Nat}
    (h : ∀ id ∈ order, mapGet mNew id = mapGet mOld id)
    (p : DownloadStatus → Bool) :
    cnt mNew order p = cnt mOld order p := by
  induction order with
  | nil => rfl
  | cons a rest ih =>
      unfold cnt
      rw [List.countP_cons, List.countP_cons, h a (List.mem_cons_self a rest)]
      have := ih (fun id hid => h id (List.mem_cons_of_mem a hid))
      unfold cnt at this
      omega

theorem cnt_update {mOld mNew : StatusMap} {order : List Nat} {idx : Nat}
    (hnodup : order.Nodup) (hmem : idx ∈ order)
    {cur newSt : DownloadStatus}
    (hold : mapGet mOld idx = some cur) (hnew : mapGet mNew idx = some newSt)
    (hother : ∀ j, j ≠ idx → mapGet mNew j = mapGet mOld j)
    (p : DownloadStatus → Bool) :
    cnt mNew order p + (if p cur then 1 else 0)
      = cnt mOld order p + (if p newSt then 1 else 0) := by
  induction order with
  | nil => cases hmem
  | cons a rest ih =>
      by_cases ha : a = idx
      · subst ha
        have hrest : ∀ id ∈ rest, mapGet mNew id = mapGet mOld id := by
          intro id hid
          refine hother id ?_
          rintro rfl
          exact (List.nodup_cons.mp hnodup).1 hid
        have hcnt := cnt_congr hrest p
        unfold cnt at hcnt ⊢
        rw [List.countP_cons, List.countP_cons, hold, hnew]
        by_cases hc : p cur = true <;> by_cases hn : p newSt = true <;>
          simp only [hc, hn, if_true, if_false] <;> omega
      · have hmem2 : idx ∈ rest := by
          rcases List.mem_cons.mp hmem with h | h
          · exact absurd h.symm ha
          · exact h
        have hnodup2 := (List.nodup_cons.mp hnodup).2
        have hha := hother a ha
        have := ih hnodup2 hmem2
        unfold cnt at this ⊢
        rw [List.countP_cons, List.countP_cons, hha]
        omega

theorem indicator_partition (st : DownloadStatus) :
    (if st.isPending = true then (1 : Nat) else 0)
      + (if st.isDownloading = true then 1 else 0)
      + (if st.isComplete = true then 1 else 0)
      + (if st.isSkipped = true then 1 else 0)
      + (if st.isCancelled = true then 1 else 0)
      + (if st.isFailed = true then 1 else 0) = 1 := by
  cases st <;>
    simp [DownloadStatus.isPending, DownloadStatus.isDownloading,
      DownloadStatus.isComplete, DownloadStatus.isSkipped,
      DownloadStatus.isCancelled, DownloadStatus.isFailed]

theorem cnt_partition (m : StatusMap) (order : List Nat)
    (h : ∀ id ∈ order, (mapGet m id).isSome = true) :
    cnt m order DownloadStatus.isPending
      + cnt m order DownloadStatus.isDownloading
      + cnt m order DownloadStatus.isComplete
      + cnt m order DownloadStatus.isSkipped
      + cnt m order DownloadStatus.isCancelled
      + cnt m order DownloadStatus.isFailed
      = order.length := by
  induction order with
  | nil => rfl
  | cons a rest ih =>
      obtain ⟨st, hst⟩ :=
        Option.isSome_iff_exists.mp (h a (List.mem_cons_self a rest))
      have := ih (fun id hid => h id (List.mem_cons_of_mem a hid))
      have hp := indicator_partition st
      unfold cnt at this ⊢
      simp only [List.countP_cons, hst, List.length_cons]
      omega

/-- Whether a status contributes its task's expected size to
`downloaded_bytes` (the code adds `map_size` exactly on the Skipped and
Complete paths). -/
def isDoneStatus : Option DownloadStatus → Bool
  | some .Complete => true
  | some .Skipped => true
  | _ => false

/-- Sum of the expected sizes already attributed to `downloaded_bytes`. -/
def doneBytes (tasks : List TaskDesc) (m : StatusMap) : Nat :=
  (tasks.map (fun t =>
    if isDoneStatus (mapGet m t.idx) then t.map_size else 0)).sum

theorem doneBytes_le (tasks : List TaskDesc) (m : StatusMap) :
    doneBytes tasks m ≤ (tasks.map TaskDesc.map_size).sum := by
  induction tasks with
  | nil => exact Nat.le_refl _
  | cons t rest ih =>
      unfold doneBytes at ih ⊢
      simp only [List.map_cons, List.sum_cons]
      cases h : isDoneStatus (mapGet m t.idx) <;> simp [h] <;> omega

theorem doneBytes_update {tasks : List TaskDesc} {mOld mNew : StatusMap}
    {t : TaskDesc} (hnodup : (tasks.map TaskDesc.idx).Nodup)
    (hmem : t ∈ tasks) {cur newSt : DownloadStatus}
    (hold : mapGet mOld t.idx = some cur)
    (hnew : mapGet mNew t.idx = some newSt)
    (hother : ∀ j, j ≠ t.idx → mapGet mNew j = mapGet mOld j) :
    doneBytes tasks mNew + (if isDoneStatus (some cur) then t.map_size else 0)
      = doneBytes tasks mOld
        + (if isDoneStatus (some newSt) then t.map_size else 0) := by
  induction tasks with
  | nil => cases hmem
  | cons a rest ih =>
      rw [List.map_cons, List.nodup_cons] at hnodup
      rcases List.mem_cons.mp hmem with rfl | hmem2
      · have hrest : rest.map (fun u =>
            if isDoneStatus (mapGet mNew u.idx) then u.map_size else 0)
            = rest.map (fun u =>
              if isDoneStatus (mapGet mOld u.idx) then u.map_size else 0) := by
          refine List.map_congr_left ?_
          intro u hu
          rw [hother u.idx ?_]
          intro hequ
          exact hnodup.1 (hequ ▸ List.mem_map_of_mem TaskDesc.idx hu)
        unfold doneBytes
        simp only [List.map_cons, List.sum_cons, hold, hnew, hrest]
        omega
      · have hha : a.idx ≠ t.idx := by
          intro h
          exact hnodup.1 (h ▸ List.mem_map_of_mem TaskDesc.idx hmem2)
        have := ih hnodup.2 hmem2
        unfold doneBytes at this ⊢
        simp only [List.map_cons, List.sum_cons, hother a.idx hha]
        omega

theorem countRunning_append (l₁ l₂ : List WorkerSt) :
    countRunning (l₁ ++ l₂) = countRunning l₁ + countRunning l₂ := by
  unfold countRunning
  rw [List.filter_append, List.length_append]

theorem countRunning_cons (w : WorkerSt) (l : List WorkerSt) :
    countRunning (w :: l)
      = (if w.phase.isRunning then 1 else 0) + countRunning l := by
  unfold countRunning
  rw [List.filter_cons]
  by_cases h : w.phase.isRunning = true <;> simp only [h, if_true, if_false] <;>
    simp <;> omega

theorem nodup_mid {α : Type} {l₁ l₂ : List α} {a : α}
    (h : (l₁ ++ a :: l₂).Nodup) : a ∉ l₁ ∧ a ∉ l₂ := by
  rw [List.nodup_append] at h
  obtain ⟨h1, h2, hd⟩ := h
  rw [List.nodup_cons] at h2
  exact ⟨fun hm => hd hm (List.mem_cons_self a l₂), h2.1⟩

/-- Coherence of one worker unit with the shared state: before starting,
its id is `Pending` and its full trace is coherent from `Pending`; while
running, its remaining trace is coherent from the current status; when
done, its id is in a terminal status and no mutation remains. -/
def WorkerOk (w : WorkerSt) (sh : DownloadState) : Prop :=
  match w.phase with
  | .notStarted => mapGet sh.downloads w.task.idx = some .Pending ∧
      OkCont w.task .Pending w.muts
  | .running => ∃ cur, mapGet sh.downloads w.task.idx = some cur ∧
      OkCont w.task cur w.muts
  | .done => ∃ cur, mapGet sh.downloads w.task.idx = some cur ∧
      cur.isTerminal = true ∧ w.muts = []

theorem workerOk_notStarted {w : WorkerSt} {sh : DownloadState}
    (hph : w.phase = .notStarted) :
    WorkerOk w sh ↔ (mapGet sh.downloads w.task.idx = some .Pending ∧
      OkCont w.task .Pending w.muts) := by
  unfold WorkerOk
  rw [hph]

theorem workerOk_running {w : WorkerSt} {sh : DownloadState}
    (hph : w.phase = .running) :
    WorkerOk w sh ↔ (∃ cur, mapGet sh.downloads w.task.idx = some cur ∧
      OkCont w.task cur w.muts) := by
  unfold WorkerOk
  rw [hph]

theorem workerOk_done {w : WorkerSt} {sh : DownloadState}
    (hph : w.phase = .done) :
    WorkerOk w sh ↔ (∃ cur, mapGet sh.downloads w.task.idx = some cur ∧
      cur.isTerminal = true ∧ w.muts = []) := by
  unfold WorkerOk
  rw [hph]

theorem WorkerOk_unchanged {u : WorkerSt} {shOld shNew : DownloadState}
    (hok : WorkerOk u shOld)
    (heq : mapGet shNew.downloads u.task.idx
      = mapGet shOld.downloads u.task.idx) :
    WorkerOk u shNew := by
  cases hph : u.phase with
  | notStarted =>
      rw [workerOk_notStarted hph] at hok ⊢
      exact ⟨by rw [heq]; exact hok.1, hok.2⟩
  | running =>
      rw [workerOk_running hph] at hok ⊢
      obtain ⟨c, h1, h2⟩ := hok
      exact ⟨c, by rw [heq]; exact h1, h2⟩
  | done =>
      rw [workerOk_done hph] at hok ⊢
      obtain ⟨c, h1, h2, h3⟩ := hok
      exact ⟨c, by rw [heq]; exact h1, h2, h3⟩

theorem cnt_downloading_le_running (sh : DownloadState) :
    ∀ (ws : List WorkerSt), (∀ w ∈ ws, WorkerOk w sh) →
      cnt sh.downloads (ws.map (fun w => w.task.idx))
        DownloadStatus.isDownloading ≤ countRunning ws := by
  intro ws
  induction ws with
  | nil => intro _; exact Nat.le_refl _
  | cons w rest ih =>
      intro h
      have hw := h w (List.mem_cons_self w rest)
      have hrest := ih (fun u hu => h u (List.mem_cons_of_mem w hu))
      rw [List.map_cons, countRunning_cons]
      unfold cnt at hrest ⊢
      rw [List.countP_cons]
      have hind : (match mapGet sh.downloads w.task.idx with
          | some st => st.isDownloading
          | none => false) = true → w.phase.isRunning = true := by
        intro hmatch
        cases hph : w.phase with
        | notStarted =>
            unfold WorkerOk at hw
            rw [hph] at hw
            rw [hw.1] at hmatch
            simp [DownloadStatus.isDownloading] at hmatch
        | running => rfl
        | done =>
            unfold WorkerOk at hw
            rw [hph] at hw
            obtain ⟨cur, hget, hterm, _⟩ := hw
            rw [hget] at hmatch
            cases cur <;> simp_all [DownloadStatus.isDownloading,
              DownloadStatus.isTerminal]
      have hle : (if (match mapGet sh.downloads w.task.idx with
          | some st => st.isDownloading
          | none => false) = true then (1 : Nat) else 0)
          ≤ (if w.phase.isRunning = true then 1 else 0) := by
        by_cases hm : (match mapGet sh.downloads w.task.idx with
            | some st => st.isDownloading
            | none => false) = true
        · rw [if_pos hm, if_pos (hind hm)]
        · rw [if_neg hm]
          exact Nat.zero_le _
      omega

theorem foldPending_spec (batch : List TaskDesc) (s : DownloadState) :
    (insertPendingAll batch s).download_order = s.download_order ∧
    (insertPendingAll batch s).active_count = s.active_count ∧
    (insertPendingAll batch s).total_queued = s.total_queued ∧
    (insertPendingAll batch s).completed_count = s.completed_count ∧
    (insertPendingAll batch s).failed_count = s.failed_count ∧
    (insertPendingAll batch s).skipped_count = s.skipped_count ∧
    (insertPendingAll batch s).cancelled_count = s.cancelled_count ∧
    (insertPendingAll batch s).total_bytes = s.total_bytes ∧
    (insertPendingAll batch s).downloaded_bytes = s.downloaded_bytes ∧
    ∀ k, mapGet (insertPendingAll batch s).downloads k =
      if k ∈ batch.map TaskDesc.idx then some DownloadStatus.Pending
      else mapGet s.downloads k := by
  unfold insertPendingAll
  induction batch generalizing s with
  | nil =>
      refine ⟨rfl, rfl, rfl, rfl, rfl, rfl, rfl, rfl, rfl, fun k => ?_⟩
      simp
  | cons t rest ih =>
      obtain ⟨h1, h2, h3, h4, h5, h6, h7, h8, h9, h10⟩ :=
        ih { s with downloads := mapInsert s.downloads t.idx .Pending }
      refine ⟨h1, h2, h3, h4, h5, h6, h7, h8, h9, fun k => ?_⟩
      rw [List.foldl_cons, h10 k]
      by_cases hk : k ∈ rest.map TaskDesc.idx
      · simp [hk]
      · by_cases hk2 : k = t.idx
        · subst hk2
          simp [hk, mapGet_insert_self]
        · simp only [List.map_cons, List.mem_cons, hk, or_false, hk2,
            if_false]
          exact mapGet_insert_ne _ _ _ _ hk2

theorem initState_spec (batch : List TaskDesc) (s : DownloadState) :
    (initState batch s).download_order = batch.map TaskDesc.idx ∧
    (initState batch s).active_count = s.active_count ∧
    (initState batch s).total_queued = batch.length ∧
    (initState batch s).completed_count = 0 ∧
    (initState batch s).failed_count = 0 ∧
    (initState batch s).skipped_count = 0 ∧
    (initState batch s).cancelled_count = 0 ∧
    (initState batch s).total_bytes
      = (batch.map TaskDesc.map_size).sum % u64Mod ∧
    (initState batch s).downloaded_bytes = 0 ∧
    ∀ k, mapGet (initState batch s).downloads k =
      if k ∈ batch.map TaskDesc.idx then some DownloadStatus.Pending
      else mapGet s.downloads k := by
  unfold initState
  obtain ⟨h1, h2, h3, h4, h5, h6, h7, h8, h9, h10⟩ :=
    foldPending_spec batch { s with
      total_queued := batch.length,
      completed_count := 0,
      failed_count := 0,
      skipped_count := 0,
      cancelled_count := 0,
      total_bytes := (batch.map TaskDesc.map_size).sum % u64Mod,
      downloaded_bytes := 0,
      download_order := batch.map TaskDesc.idx }
  exact ⟨h1, h2, h3, h4, h5, h6, h7, h8, h9, h10⟩

/-- Global coherence of the spawned batch with its task list: worker
identity, the permit accounting of the semaphore, the structural fields
set at submission, per-worker trace coherence, and the counter/byte
bookkeeping of the shared state. -/
structure SysInv (limit : Nat) (tasks : List TaskDesc) (st : SysState) :
    Prop where
  wtasks : st.workers.map WorkerSt.task = tasks
  sem_run : st.sem + countRunning st.workers = limit
  horder : st.shared.download_order = tasks.map TaskDesc.idx
  htq : st.shared.total_queued = tasks.length
  htb : st.shared.total_bytes = (tasks.map TaskDesc.map_size).sum % u64Mod
  wok : ∀ w ∈ st.workers, WorkerOk w st.shared
  hcomp : st.shared.completed_count
    = cnt st.shared.downloads (tasks.map TaskDesc.idx)
        DownloadStatus.isComplete
  hfail : st.shared.failed_count
    = cnt st.shared.downloads (tasks.map TaskDesc.idx)
        DownloadStatus.isFailed
  hskip : st.shared.skipped_count
    = cnt st.shared.downloads (tasks.map TaskDesc.idx)
        DownloadStatus.isSkipped
  hcanc : st.shared.cancelled_count
    = cnt st.shared.downloads (tasks.map TaskDesc.idx)
        DownloadStatus.isCancelled
  hact : st.shared.active_count
    = cnt st.shared.downloads (tasks.map TaskDesc.idx)
        DownloadStatus.isDownloading
  hbytes : st.shared.downloaded_bytes = doneBytes tasks st.shared.downloads

theorem countRunning_notStarted (ws : List WorkerSt)
    (h : ∀ w ∈ ws, w.phase = .notStarted) : countRunning ws = 0 := by
  induction ws with
  | nil => rfl
  | cons w rest ih =>
      rw [countRunning_cons, ih (fun u hu => h u (List.mem_cons_of_mem w hu)),
        h w (List.mem_cons_self w rest)]
      rfl

theorem cnt_const_pending (m : StatusMap) (order : List Nat)
    (h : ∀ id ∈ order, mapGet m id = some .Pending)
    (p : DownloadStatus → Bool) (hp : p .Pending = false) :
    cnt m order p = 0 := by
  induction order with
  | nil => rfl
  | cons a rest ih =>
      unfold cnt at ih ⊢
      rw [List.countP_cons, h a (List.mem_cons_self a rest),
        ih (fun id hid => h id (List.mem_cons_of_mem a hid))]
      simp [hp]

theorem doneBytes_const_pending (tasks : List TaskDesc) (m : StatusMap)
    (h : ∀ t ∈ tasks, mapGet m t.idx = some .Pending) :
    doneBytes tasks m = 0 := by
  induction tasks with
  | nil => rfl
  | cons t rest ih =>
      unfold doneBytes at ih ⊢
      rw [List.map_cons, List.sum_cons, h t (List.mem_cons_self t rest),
        ih (fun u hu => h u (List.mem_cons_of_mem t hu))]
      rfl

theorem cnt_pos {m : StatusMap} {order : List Nat} {idx : Nat}
    {cur : DownloadStatus} (hmem : idx ∈ order)
    (hget : mapGet m idx = some cur) {p : DownloadStatus → Bool}
    (hp : p cur = true) : 0 < cnt m order p := by
  unfold cnt
  rw [List.countP_pos]
  refine ⟨idx, hmem, ?_⟩
  rw [hget]
  exact hp

theorem SysInv_init (limit : Nat) (batch : List TaskDesc)
    (envs : List WorkerEnv) (s0 : DownloadState)
    (hlen : batch.length ≤ envs.length)
    (ha : s0.active_count = 0) :
    SysInv limit batch (sysInit limit batch envs s0) := by
  obtain ⟨h1, h2, h3, h4, h5, h6, h7, h8, h9, h10⟩ := initState_spec batch s0
  have hwt : ((batch.zip envs).map
      (fun p => (⟨p.1, workerMuts p.1 p.2, .notStarted⟩ : WorkerSt))).map
        WorkerSt.task = batch := by
    rw [List.map_map]
    have : (WorkerSt.task ∘ fun p : TaskDesc × WorkerEnv =>
        (⟨p.1, workerMuts p.1 p.2, .notStarted⟩ : WorkerSt)) = Prod.fst := by
      funext p
      rfl
    rw [this]
    exact List.map_fst_zip batch envs hlen
  have hpend : ∀ id ∈ batch.map TaskDesc.idx,
      mapGet (initState batch s0).downloads id = some .Pending := by
    intro id hid
    rw [h10 id, if_pos hid]
  have hpendT : ∀ t ∈ batch,
      mapGet (initState batch s0).downloads t.idx = some .Pending :=
    fun t ht => hpend t.idx (List.mem_map_of_mem TaskDesc.idx ht)
  have hns : ∀ w ∈ (batch.zip envs).map
      (fun p => (⟨p.1, workerMuts p.1 p.2, .notStarted⟩ : WorkerSt)),
      w.phase = WPhase.notStarted := by
    intro w hw
    obtain ⟨p, _, hpw⟩ := List.mem_map.mp hw
    rw [← hpw]
  refine ⟨?_, ?_, ?_, ?_, ?_, ?_, ?_, ?_, ?_, ?_, ?_, ?_⟩ <;>
    dsimp only [sysInit]
  · exact hwt
  · rw [countRunning_notStarted _ hns]
    omega
  · exact h1
  · exact h3
  · exact h8
  · intro w hw
    obtain ⟨p, hp, hpw⟩ := List.mem_map.mp hw
    have hp1 : p.1 ∈ batch := (List.mem_zip hp).1
    rw [← hpw]
    exact ⟨hpendT p.1 hp1, okCont_workerMuts p.1 p.2⟩
  · rw [h4, cnt_const_pending _ _ hpend _ rfl]
  · rw [h5, cnt_const_pending _ _ hpend _ rfl]
  · rw [h6, cnt_const_pending _ _ hpend _ rfl]
  · rw [h7, cnt_const_pending _ _ hpend _ rfl]
  · rw [h2, ha, cnt_const_pending _ _ hpend _ rfl]
  · rw [h9, doneBytes_const_pending _ _ hpendT]

theorem SysInv_step {limit : Nat} {tasks : List TaskDesc} {st st2 : SysState}
    (hnodup : (tasks.map TaskDesc.idx).Nodup)
    (hsz : (tasks.map TaskDesc.map_size).sum < u64Mod)
    (inv : SysInv limit tasks st) (hstep : SysStep st st2) :
    SysInv limit tasks st2 := by
  obtain ⟨wtasks, sem_run, horder, htq, htb, wok, hcomp, hfail, hskip, hcanc,
    hact, hbytes⟩ := inv
  cases hstep with
  | acquire l₁ l₂ w sem sh hph hsem =>
      dsimp only at wtasks sem_run horder htq htb hcomp hfail hskip hcanc hact hbytes
      have hwmem : w ∈ l₁ ++ w :: l₂ :=
        List.mem_append.mpr (Or.inr (List.mem_cons_self w l₂))
      have hw := (workerOk_notStarted hph).mp (wok w hwmem)
      refine ⟨?_, ?_, horder, htq, htb, ?_, hcomp, hfail, hskip, hcanc, hact,
        hbytes⟩
      · rw [List.map_append, List.map_cons] at wtasks ⊢
        exact wtasks
      · show sem - 1 + countRunning (l₁ ++ { w with phase := .running } :: l₂)
          = limit
        rw [countRunning_append, countRunning_cons] at sem_run ⊢
        rw [hph] at sem_run
        have hph2 : ({ w with phase := WPhase.running } : WorkerSt).phase
            = WPhase.running := rfl
        rw [hph2]
        have e1 : (if WPhase.isRunning WPhase.running = true
            then (1 : Nat) else 0) = 1 := rfl
        have e0 : (if WPhase.isRunning WPhase.notStarted = true
            then (1 : Nat) else 0) = 0 := rfl
        rw [e1]
        rw [e0] at sem_run
        omega
      · intro u hu
        rcases List.mem_append.mp hu with hu1 | hu2
        · exact wok u (List.mem_append.mpr (Or.inl hu1))
        · rcases List.mem_cons.mp hu2 with rfl | hu3
          · exact (workerOk_running rfl).mpr ⟨.Pending, hw.1, hw.2⟩
          · exact wok u
              (List.mem_append.mpr (Or.inr (List.mem_cons_of_mem w hu3)))
  | finish l₁ l₂ w sem sh hph hm =>
      dsimp only at wtasks sem_run horder htq htb hcomp hfail hskip hcanc hact hbytes
      have hwmem : w ∈ l₁ ++ w :: l₂ :=
        List.mem_append.mpr (Or.inr (List.mem_cons_self w l₂))
      obtain ⟨cur, hget, hcont⟩ := (workerOk_running hph).mp (wok w hwmem)
      rw [hm] at hcont
      have hterm : cur.isTerminal = true := by
        cases hcont with
        | nil h => exact h
      refine ⟨?_, ?_, horder, htq, htb, ?_, hcomp, hfail, hskip, hcanc, hact,
        hbytes⟩
      · rw [List.map_append, List.map_cons] at wtasks ⊢
        exact wtasks
      · show sem + 1 + countRunning (l₁ ++ { w with phase := .done } :: l₂)
          = limit
        rw [countRunning_append, countRunning_cons] at sem_run ⊢
        rw [hph] at sem_run
        have hph2 : ({ w with phase := WPhase.done } : WorkerSt).phase
            = WPhase.done := rfl
        rw [hph2]
        have e1 : (if WPhase.isRunning WPhase.running = true
            then (1 : Nat) else 0) = 1 := rfl
        have e0 : (if WPhase.isRunning WPhase.done = true
            then (1 : Nat) else 0) = 0 := rfl
        rw [e0]
        rw [e1] at sem_run
        omega
      · intro u hu
        rcases List.mem_append.mp hu with hu1 | hu2
        · exact wok u (List.mem_append.mpr (Or.inl hu1))
        · rcases List.mem_cons.mp hu2 with rfl | hu3
          · exact (workerOk_done rfl).mpr ⟨cur, hget, hterm, hm⟩
          · exact wok u
              (List.mem_append.mpr (Or.inr (List.mem_cons_of_mem w hu3)))
  | mutate l₁ l₂ w m rest sem sh hph hm =>
      dsimp only at wtasks sem_run horder htq htb hcomp hfail hskip hcanc hact hbytes
      have hwmem : w ∈ l₁ ++ w :: l₂ :=
        List.mem_append.mpr (Or.inr (List.mem_cons_self w l₂))
      obtain ⟨cur, hget, hcont⟩ := (workerOk_running hph).mp (wok w hwmem)
      rw [hm] at hcont
      cases hcont with
      | cons hkey hsizeOk hpre hcont2 =>
      have htmem : w.task ∈ tasks := by
        rw [← wtasks]
        exact List.mem_map_of_mem WorkerSt.task hwmem
      have hmemidx : w.task.idx ∈ tasks.map TaskDesc.idx :=
        List.mem_map_of_mem TaskDesc.idx htmem
      have hget3 : mapGet sh.downloads w.task.idx = some cur := hget
      have hget2 : mapGet sh.downloads m.key = some cur := by
        rw [hkey]
        exact hget3
      have hnew2 : mapGet (applyMut m sh).downloads w.task.idx
          = some (m.statusAfter cur) := by
        have h := mapGet_applyMut_key hget2
        rw [hkey] at h
        exact h
      have hother2 : ∀ j, j ≠ w.task.idx →
          mapGet (applyMut m sh).downloads j = mapGet sh.downloads j := by
        intro j hj
        refine mapGet_applyMut_ne m sh j ?_
        rw [hkey]
        exact hj
      have hcnt : ∀ p : DownloadStatus → Bool,
          cnt (applyMut m sh).downloads (tasks.map TaskDesc.idx) p
            + (if p cur = true then 1 else 0)
          = cnt sh.downloads (tasks.map TaskDesc.idx) p
            + (if p (m.statusAfter cur) = true then 1 else 0) :=
        fun p => cnt_update hnodup hmemidx hget3 hnew2 hother2 p
      have hdb : doneBytes tasks (applyMut m sh).downloads
            + (if isDoneStatus (some cur) = true then w.task.map_size else 0)
          = doneBytes tasks sh.downloads
            + (if isDoneStatus (some (m.statusAfter cur)) = true
               then w.task.map_size else 0) :=
        doneBytes_update hnodup htmem hget3 hnew2 hother2
      have hmapidx : (l₁ ++ w :: l₂).map (fun u => u.task.idx)
          = tasks.map TaskDesc.idx := by
        rw [← wtasks, List.map_map]
        rfl
      have hnodup3 : (l₁.map (fun u => u.task.idx)
          ++ w.task.idx :: l₂.map (fun u => u.task.idx)).Nodup := by
        have h := hnodup
        rw [← hmapidx, List.map_append, List.map_cons] at h
        exact h
      obtain ⟨hnot1, hnot2⟩ := nodup_mid hnodup3
      have hne : ∀ u, (u ∈ l₁ ∨ u ∈ l₂) → u.task.idx ≠ w.task.idx := by
        intro u hu he
        rcases hu with hu | hu
        · exact hnot1 (he ▸ List.mem_map_of_mem (fun v => v.task.idx) hu)
        · exact hnot2 (he ▸ List.mem_map_of_mem (fun v => v.task.idx) hu)
      have hwok2 : ∀ u ∈ l₁ ++ { w with muts := rest } :: l₂,
          WorkerOk u (applyMut m sh) := by
        intro u hu
        rcases List.mem_append.mp hu with hu1 | hu2
        · exact WorkerOk_unchanged (wok u (List.mem_append.mpr (Or.inl hu1)))
            (hother2 _ (hne u (Or.inl hu1)))
        · rcases List.mem_cons.mp hu2 with rfl | hu3
          · exact (workerOk_running (w := { w with muts := rest }) hph).mpr
              ⟨m.statusAfter cur, hnew2, hcont2⟩
          · exact WorkerOk_unchanged (wok u
              (List.mem_append.mpr (Or.inr (List.mem_cons_of_mem w hu3))))
              (hother2 _ (hne u (Or.inr hu3)))
      have hpos : cur.isDownloading = true →
          0 < cnt sh.downloads (tasks.map TaskDesc.idx)
            DownloadStatus.isDownloading :=
        fun hc => cnt_pos hmemidx hget3 hc
      have hfields :
          (applyMut m sh).completed_count
            = cnt (applyMut m sh).downloads (tasks.map TaskDesc.idx)
                DownloadStatus.isComplete ∧
          (applyMut m sh).failed_count
            = cnt (applyMut m sh).downloads (tasks.map TaskDesc.idx)
                DownloadStatus.isFailed ∧
          (applyMut m sh).skipped_count
            = cnt (applyMut m sh).downloads (tasks.map TaskDesc.idx)
                DownloadStatus.isSkipped ∧
          (applyMut m sh).cancelled_count
            = cnt (applyMut m sh).downloads (tasks.map TaskDesc.idx)
                DownloadStatus.isCancelled ∧
          (applyMut m sh).active_count
            = cnt (applyMut m sh).downloads (tasks.map TaskDesc.idx)
                DownloadStatus.isDownloading ∧
          (applyMut m sh).downloaded_bytes
            = doneBytes tasks (applyMut m sh).downloads := by
        have hlt : doneBytes tasks (applyMut m sh).downloads < u64Mod :=
          lt_of_le_of_lt (doneBytes_le _ _) hsz
        cases m with
        | cancelIfPending idx =>
            by_cases hc : cur = .Pending
            · subst hc
              have hcond : mapGet sh.downloads idx = some .Pending := hget2
              have e1 := hcnt DownloadStatus.isComplete
              have e2 := hcnt DownloadStatus.isFailed
              have e3 := hcnt DownloadStatus.isSkipped
              have e4 := hcnt DownloadStatus.isCancelled
              have e5 := hcnt DownloadStatus.isDownloading
              simp [DownloadStatus.isComplete, DownloadStatus.isFailed,
                DownloadStatus.isSkipped, DownloadStatus.isCancelled,
                DownloadStatus.isDownloading, Mut.statusAfter, isDoneStatus]
                at e1 e2 e3 e4 e5 hdb
              simp only [applyMut, if_pos hcond] at e1 e2 e3 e4 e5 hdb
              refine ⟨?_, ?_, ?_, ?_, ?_, ?_⟩ <;>
                simp only [applyMut, if_pos hcond] <;> omega
            · have hcond : ¬ mapGet sh.downloads idx = some .Pending := by
                have hg : mapGet sh.downloads idx = some cur := hget2
                rw [hg]
                intro hcc
                exact hc (Option.some.inj hcc)
              have e1 := hcnt DownloadStatus.isComplete
              have e2 := hcnt DownloadStatus.isFailed
              have e3 := hcnt DownloadStatus.isSkipped
              have e4 := hcnt DownloadStatus.isCancelled
              have e5 := hcnt DownloadStatus.isDownloading
              simp only [Mut.statusAfter, if_neg hc] at e1 e2 e3 e4 e5 hdb
              simp only [applyMut, if_neg hcond] at e1 e2 e3 e4 e5 hdb
              refine ⟨?_, ?_, ?_, ?_, ?_, ?_⟩ <;>
                simp only [applyMut, if_neg hcond] <;> omega
        | skip idx size =>
            have hc : cur = .Pending := hpre
            subst hc
            have hs : size = w.task.map_size := hsizeOk
            subst hs
            have e1 := hcnt DownloadStatus.isComplete
            have e2 := hcnt DownloadStatus.isFailed
            have e3 := hcnt DownloadStatus.isSkipped
            have e4 := hcnt DownloadStatus.isCancelled
            have e5 := hcnt DownloadStatus.isDownloading
            simp [DownloadStatus.isComplete, DownloadStatus.isFailed,
              DownloadStatus.isSkipped, DownloadStatus.isCancelled,
              DownloadStatus.isDownloading, Mut.statusAfter, isDoneStatus]
              at e1 e2 e3 e4 e5 hdb
            simp only [applyMut] at e1 e2 e3 e4 e5 hdb hlt
            refine ⟨?_, ?_, ?_, ?_, ?_, ?_⟩ <;> simp only [applyMut]
            · omega
            · omega
            · omega
            · omega
            · omega
            · have heq : sh.downloaded_bytes + w.task.map_size
                  = doneBytes tasks
                      (mapInsert sh.downloads idx DownloadStatus.Skipped) := by
                omega
              rw [heq]
              exact Nat.mod_eq_of_lt hlt
        | startDownloading idx =>
            have hc : cur = .Pending := hpre
            subst hc
            have e1 := hcnt DownloadStatus.isComplete
            have e2 := hcnt DownloadStatus.isFailed
            have e3 := hcnt DownloadStatus.isSkipped
            have e4 := hcnt DownloadStatus.isCancelled
            have e5 := hcnt DownloadStatus.isDownloading
            simp [DownloadStatus.isComplete, DownloadStatus.isFailed,
              DownloadStatus.isSkipped, DownloadStatus.isCancelled,
              DownloadStatus.isDownloading, Mut.statusAfter, isDoneStatus]
              at e1 e2 e3 e4 e5 hdb
            simp only [applyMut] at e1 e2 e3 e4 e5 hdb
            refine ⟨?_, ?_, ?_, ?_, ?_, ?_⟩ <;> simp only [applyMut] <;> omega
        | progress idx dl tot =>
            have hpc : cur.isDownloading = true := hpre
            obtain ⟨a, b, rfl⟩ : ∃ a b, cur = .Downloading a b := by
              cases cur <;> simp [DownloadStatus.isDownloading] at hpc
              exact ⟨_, _, rfl⟩
            have e1 := hcnt DownloadStatus.isComplete
            have e2 := hcnt DownloadStatus.isFailed
            have e3 := hcnt DownloadStatus.isSkipped
            have e4 := hcnt DownloadStatus.isCancelled
            have e5 := hcnt DownloadStatus.isDownloading
            simp [DownloadStatus.isComplete, DownloadStatus.isFailed,
              DownloadStatus.isSkipped, DownloadStatus.isCancelled,
              DownloadStatus.isDownloading, Mut.statusAfter, isDoneStatus]
              at e1 e2 e3 e4 e5 hdb
            simp only [applyMut] at e1 e2 e3 e4 e5 hdb
            refine ⟨?_, ?_, ?_, ?_, ?_, ?_⟩ <;> simp only [applyMut] <;> omega
        | cancelMid idx =>
            have hpc : cur.isDownloading = true := hpre
            obtain ⟨a, b, rfl⟩ : ∃ a b, cur = .Downloading a b := by
              cases cur <;> simp [DownloadStatus.isDownloading] at hpc
              exact ⟨_, _, rfl⟩
            have hp1 := hpos rfl
            have e1 := hcnt DownloadStatus.isComplete
            have e2 := hcnt DownloadStatus.isFailed
            have e3 := hcnt DownloadStatus.isSkipped
            have e4 := hcnt DownloadStatus.isCancelled
            have e5 := hcnt DownloadStatus.isDownloading
            simp [DownloadStatus.isComplete, DownloadStatus.isFailed,
              DownloadStatus.isSkipped, DownloadStatus.isCancelled,
              DownloadStatus.isDownloading, Mut.statusAfter, isDoneStatus]
              at e1 e2 e3 e4 e5 hdb
            simp only [applyMut] at e1 e2 e3 e4 e5 hdb
            refine ⟨?_, ?_, ?_, ?_, ?_, ?_⟩ <;> simp only [applyMut] <;> omega
        | failTerm idx msg =>
            have hpc : cur.isDownloading = true := hpre
            obtain ⟨a, b, rfl⟩ : ∃ a b, cur = .Downloading a b := by
              cases cur <;> simp [DownloadStatus.isDownloading] at hpc
              exact ⟨_, _, rfl⟩
            have hp1 := hpos rfl
            have e1 := hcnt DownloadStatus.isComplete
            have e2 := hcnt DownloadStatus.isFailed
            have e3 := hcnt DownloadStatus.isSkipped
            have e4 := hcnt DownloadStatus.isCancelled
            have e5 := hcnt DownloadStatus.isDownloading
            simp [DownloadStatus.isComplete, DownloadStatus.isFailed,
              DownloadStatus.isSkipped, DownloadStatus.isCancelled,
              DownloadStatus.isDownloading, Mut.statusAfter, isDoneStatus]
              at e1 e2 e3 e4 e5 hdb
            simp only [applyMut] at e1 e2 e3 e4 e5 hdb
            refine ⟨?_, ?_, ?_, ?_, ?_, ?_⟩ <;> simp only [applyMut] <;> omega
        | complete idx size =>
            have hpc : cur.isDownloading = true := hpre
            obtain ⟨a, b, rfl⟩ : ∃ a b, cur = .Downloading a b := by
              cases cur <;> simp [DownloadStatus.isDownloading] at hpc
              exact ⟨_, _, rfl⟩
            have hs : size = w.task.map_size := hsizeOk
            subst hs
            have hp1 := hpos rfl
            have e1 := hcnt DownloadStatus.isComplete
            have e2 := hcnt DownloadStatus.isFailed
            have e3 := hcnt DownloadStatus.isSkipped
            have e4 := hcnt DownloadStatus.isCancelled
            have e5 := hcnt DownloadStatus.isDownloading
            simp [DownloadStatus.isComplete, DownloadStatus.isFailed,
              DownloadStatus.isSkipped, DownloadStatus.isCancelled,
              DownloadStatus.isDownloading, Mut.statusAfter, isDoneStatus]
              at e1 e2 e3 e4 e5 hdb
            simp only [applyMut] at e1 e2 e3 e4 e5 hdb hlt
            refine ⟨?_, ?_, ?_, ?_, ?_, ?_⟩ <;> simp only [applyMut]
            · omega
            · omega
            · omega
            · omega
            · omega
            · have heq : sh.downloaded_bytes + w.task.map_size
                  = doneBytes tasks
                      (mapInsert sh.downloads idx DownloadStatus.Complete) := by
                omega
              rw [heq]
              exact Nat.mod_eq_of_lt hlt
      refine ⟨?_, ?_, ?_, ?_, ?_, hwok2, hfields.1, hfields.2.1,
        hfields.2.2.1, hfields.2.2.2.1, hfields.2.2.2.2.1,
        hfields.2.2.2.2.2⟩
      · rw [List.map_append, List.map_cons] at wtasks ⊢
        exact wtasks
      · show sem + countRunning (l₁ ++ { w with muts := rest } :: l₂) = limit
        rw [countRunning_append, countRunning_cons] at sem_run ⊢
        have hph2 : ({ w with muts := rest } : WorkerSt).phase = w.phase := rfl
        rw [hph2]
        exact sem_run
      · show (applyMut m sh).download_order = tasks.map TaskDesc.idx
        rw [(applyMut_frame m sh).1]
        exact horder
      · show (applyMut m sh).total_queued = tasks.length
        rw [(applyMut_frame m sh).2.1]
        exact htq
      · show (applyMut m sh).total_bytes
          = (tasks.map TaskDesc.map_size).sum % u64Mod
        rw [(applyMut_frame m sh).2.2]
        exact htb

theorem SysInv_reach {limit : Nat} {batch : List TaskDesc}
    {envs : List WorkerEnv} {s0 : DownloadState} {st : SysState}
    (hlen : batch.length ≤ envs.length)
    (hnodup : (batch.map TaskDesc.idx).Nodup)
    (hsz : (batch.map TaskDesc.map_size).sum < u64Mod)
    (ha : s0.active_count = 0)
    (hreach : SysReach (sysInit limit batch envs s0) st) :
    SysInv limit batch st := by
  induction hreach with
  | refl => exact SysInv_init limit batch envs s0 hlen ha
  | step h hstep ih => exact SysInv_step hnodup hsz ih hstep

theorem workerOk_isSome {w : WorkerSt} {sh : DownloadState}
    (h : WorkerOk w sh) :
    (mapGet sh.downloads w.task.idx).isSome = true := by
  cases hph : w.phase with
  | notStarted =>
      rw [workerOk_notStarted hph] at h
      rw [h.1]
      rfl
  | running =>
      rw [workerOk_running hph] at h
      obtain ⟨c, h1, _⟩ := h
      rw [h1]
      rfl
  | done =>
      rw [workerOk_done hph] at h
      obtain ⟨c, h1, _⟩ := h
      rw [h1]
      rfl

/-- State of the thumbnail prefetch pool
(src/src/app/thumbnails.rs lines 17-54): spawned fetch tasks not yet
holding a permit, tasks holding a permit (transfer in flight), and free
permits of the `Semaphore::new(8)`. -/
structure ThumbPool where
  waiting : Nat
  running : Nat
  sem : Nat
deriving DecidableEq

/-- The permit discipline of one spawned thumbnail task: acquire one
permit before the GET, hold it for the whole transfer, release it when
the task ends. -/
inductive ThumbStep : ThumbPool → ThumbPool → Prop where
  | acquire {p : ThumbPool} : 0 < p.waiting → 0 < p.sem →
      ThumbStep p ⟨p.waiting - 1, p.running + 1, p.sem - 1⟩
  | finish {p : ThumbPool} : 0 < p.running →
      ThumbStep p ⟨p.waiting, p.running - 1, p.sem + 1⟩

/-- Initial thumbnail pool: `n` spawned tasks, none in flight, all
permits free. -/
def thumbInit (n : Nat) : ThumbPool := ⟨n, 0, thumbnailConcurrencyLimit⟩

/-- Reachability of the thumbnail pool. -/
inductive ThumbReach (start : ThumbPool) : ThumbPool → Prop where
  | refl : ThumbReach start start
  | step {p q : ThumbPool} : ThumbReach start p → ThumbStep p q →
      ThumbReach start q

theorem thumb_sem_inv {n : Nat} {p : ThumbPool}
    (h : ThumbReach (thumbInit n) p) :
    p.running + p.sem = thumbnailConcurrencyLimit := by
  induction h with
  | refl => rfl
  | step h hstep ih =>
      cases hstep with
      | acquire hw hs =>
          show _ + 1 + (_ - 1) = thumbnailConcurrencyLimit
          omega
      | finish hr =>
          show _ - 1 + (_ + 1) = thumbnailConcurrencyLimit
          omega

/-- C4: during a spawned batch at most `downloadConcurrencyLimit = 4`
tasks are simultaneously in the `Downloading` state (each worker holds
one of the 4 semaphore permits from before its HTTP GET to its terminal
outcome), and the thumbnail prefetch pool is bounded by its own separate
limit `thumbnailConcurrencyLimit = 8`. -/
theorem C4_bounded_concurrency
    (batch : List TaskDesc) (envs : List WorkerEnv) (s0 : DownloadState)
    (st : SysState) (n : Nat) (tp : ThumbPool)
    (hlen : batch.length ≤ envs.length)
    (hnodup : (batch.map TaskDesc.idx).Nodup)
    (hsz : (batch.map TaskDesc.map_size).sum < u64Mod)
    (ha : s0.active_count = 0)
    (hreach : SysReach (sysInit downloadConcurrencyLimit batch envs s0) st)
    (hthumb : ThumbReach (thumbInit n) tp) :
    cnt st.shared.downloads st.shared.download_order
      DownloadStatus.isDownloading ≤ downloadConcurrencyLimit ∧
    downloadConcurrencyLimit = 4 ∧
    tp.running ≤ thumbnailConcurrencyLimit ∧
    thumbnailConcurrencyLimit = 8 := by
  have inv := SysInv_reach hlen hnodup hsz ha hreach
  refine ⟨?_, rfl, ?_, rfl⟩
  · have h1 : st.shared.download_order
        = st.workers.map (fun u => u.task.idx) := by
      rw [inv.horder, ← inv.wtasks, List.map_map]
      rfl
    rw [h1]
    have h2 := cnt_downloading_le_running st.shared st.workers inv.wok
    have h3 := inv.sem_run
    omega
  · have := thumb_sem_inv hthumb
    omega

/-- C3: at every reachable snapshot of a batch the counter equation
`completed + failed + skipped + cancelled + active + pending =
total_queued` holds, and `downloaded_bytes ≤ total_bytes`. -/
theorem C3_aggregate_consistency
    (batch : List TaskDesc) (envs : List WorkerEnv) (s0 : DownloadState)
    (st : SysState)
    (hlen : batch.length ≤ envs.length)
    (hnodup : (batch.map TaskDesc.idx).Nodup)
    (hsz : (batch.map TaskDesc.map_size).sum < u64Mod)
    (ha : s0.active_count = 0)
    (hreach : SysReach (sysInit downloadConcurrencyLimit batch envs s0) st) :
    st.shared.completed_count + st.shared.failed_count
      + st.shared.skipped_count + st.shared.cancelled_count
      + st.shared.active_count
      + cnt st.shared.downloads st.shared.download_order
          DownloadStatus.isPending
      = st.shared.total_queued ∧
    st.shared.downloaded_bytes ≤ st.shared.total_bytes := by
  have inv := SysInv_reach hlen hnodup hsz ha hreach
  constructor
  · have hsome : ∀ id ∈ batch.map TaskDesc.idx,
        (mapGet st.shared.downloads id).isSome = true := by
      intro id hid
      obtain ⟨t, ht, hti⟩ := List.mem_map.mp hid
      have ht2 : t ∈ st.workers.map WorkerSt.task := by
        rw [inv.wtasks]
        exact ht
      obtain ⟨u, hu, hut⟩ := List.mem_map.mp ht2
      have := workerOk_isSome (inv.wok u hu)
      rw [hut, hti] at this
      exact this
    have hpart := cnt_partition st.shared.downloads (batch.map TaskDesc.idx)
      hsome
    have hlen2 : (batch.map TaskDesc.idx).length = batch.length :=
      List.length_map batch TaskDesc.idx
    rw [inv.horder, inv.hcomp, inv.hfail, inv.hskip, inv.hcanc, inv.hact,
      inv.htq]
    omega
  · rw [inv.hbytes, inv.htb, Nat.mod_eq_of_lt hsz]
    exact doneBytes_le batch st.shared.downloads

/-- C2: along any reachable execution of a batch, a step never changes
the status of an id already in a terminal state, and every status
change is one of the transitions Pending to Cancelled, Pending to
Skipped, Pending to Downloading, Downloading to Downloading, or
Downloading to a terminal state. -/
theorem C2_terminal_finality
    (batch : List TaskDesc) (envs : List WorkerEnv) (s0 : DownloadState)
    (st st2 : SysState) (id : Nat)
    (hlen : batch.length ≤ envs.length)
    (hnodup : (batch.map TaskDesc.idx).Nodup)
    (hsz : (batch.map TaskDesc.map_size).sum < u64Mod)
    (ha : s0.active_count = 0)
    (hreach : SysReach (sysInit downloadConcurrencyLimit batch envs s0) st)
    (hstep : SysStep st st2) :
    (∀ cur, mapGet st.shared.downloads id = some cur →
      cur.isTerminal = true → mapGet st2.shared.downloads id = some cur) ∧
    (mapGet st2.shared.downloads id = mapGet st.shared.downloads id ∨
      ∃ a b, mapGet st.shared.downloads id = some a ∧
        mapGet st2.shared.downloads id = some b ∧ AllowedTransition a b) := by
  have inv := SysInv_reach hlen hnodup hsz ha hreach
  obtain ⟨wtasks, sem_run, horder, htq, htb, wok, _, _, _, _, _, _⟩ := inv
  cases hstep with
  | acquire l₁ l₂ w sem sh hph hsem =>
      exact ⟨fun cur h _ => h, Or.inl rfl⟩
  | finish l₁ l₂ w sem sh hph hm =>
      exact ⟨fun cur h _ => h, Or.inl rfl⟩
  | mutate l₁ l₂ w m rest sem sh hph hm =>
      have hwmem : w ∈ l₁ ++ w :: l₂ :=
        List.mem_append.mpr (Or.inr (List.mem_cons_self w l₂))
      obtain ⟨cur, hget, hcont⟩ := (workerOk_running hph).mp (wok w hwmem)
      rw [hm] at hcont
      cases hcont with
      | cons hkey hsizeOk hpre hcont2 =>
      have hget3 : mapGet sh.downloads w.task.idx = some cur := hget
      by_cases hid : id = w.task.idx
      · subst hid
        have hnew2 : mapGet (applyMut m sh).downloads w.task.idx
            = some (m.statusAfter cur) := by
          have hg : mapGet sh.downloads m.key = some cur := by
            rw [hkey]
            exact hget3
          have h := mapGet_applyMut_key hg
          rw [hkey] at h
          exact h
        constructor
        · intro cur2 hcur2 hterm
          have hc : cur2 = cur := by
            have hg : mapGet sh.downloads w.task.idx = some cur2 := hcur2
            rw [hget3] at hg
            exact (Option.some.inj hg).symm
          subst hc
          have hsa : m.statusAfter cur2 = cur2 := by
            cases m with
            | cancelIfPending _ =>
                have hnp : ¬ cur2 = .Pending := by
                  intro h
                  subst h
                  simp [DownloadStatus.isTerminal] at hterm
                simp [Mut.statusAfter, hnp]
            | skip _ _ =>
                have hc : cur2 = .Pending := hpre
                subst hc
                simp [DownloadStatus.isTerminal] at hterm
            | startDownloading _ =>
                have hc : cur2 = .Pending := hpre
                subst hc
                simp [DownloadStatus.isTerminal] at hterm
            | progress _ _ _ =>
                have hc : cur2.isDownloading = true := hpre
                cases cur2 <;> simp_all [DownloadStatus.isDownloading,
                  DownloadStatus.isTerminal]
            | cancelMid _ =>
                have hc : cur2.isDownloading = true := hpre
                cases cur2 <;> simp_all [DownloadStatus.isDownloading,
                  DownloadStatus.isTerminal]
            | failTerm _ _ =>
                have hc : cur2.isDownloading = true := hpre
                cases cur2 <;> simp_all [DownloadStatus.isDownloading,
                  DownloadStatus.isTerminal]
            | complete _ _ =>
                have hc : cur2.isDownloading = true := hpre
                cases cur2 <;> simp_all [DownloadStatus.isDownloading,
                  DownloadStatus.isTerminal]
          rw [hnew2, hsa]
        · cases m with
          | cancelIfPending j =>
              by_cases hc : cur = .Pending
              · subst hc
                right
                refine ⟨.Pending, .Cancelled, hget3, ?_,
                  AllowedTransition.pendingCancelled⟩
                have hsa : (Mut.cancelIfPending j).statusAfter .Pending
                    = .Cancelled := rfl
                rw [← hsa]
                exact hnew2
              · left
                rw [hnew2, hget3]
                simp [Mut.statusAfter, hc]
          | skip j size =>
              have hc : cur = .Pending := hpre
              subst hc
              right
              exact ⟨.Pending, .Skipped, hget3, hnew2,
                AllowedTransition.pendingSkipped⟩
          | startDownloading j =>
              have hc : cur = .Pending := hpre
              subst hc
              right
              exact ⟨.Pending, .Downloading 0 0, hget3, hnew2,
                AllowedTransition.pendingDownloading 0 0⟩
          | progress j dl tot =>
              have hc : cur.isDownloading = true := hpre
              obtain ⟨a, b, rfl⟩ : ∃ a b, cur = .Downloading a b := by
                cases cur <;> simp [DownloadStatus.isDownloading] at hc
                exact ⟨_, _, rfl⟩
              right
              exact ⟨.Downloading a b, .Downloading dl tot, hget3, hnew2,
                AllowedTransition.progress a b dl tot⟩
          | cancelMid j =>
              have hc : cur.isDownloading = true := hpre
              obtain ⟨a, b, rfl⟩ : ∃ a b, cur = .Downloading a b := by
                cases cur <;> simp [DownloadStatus.isDownloading] at hc
                exact ⟨_, _, rfl⟩
              right
              exact ⟨.Downloading a b, .Cancelled, hget3, hnew2,
                AllowedTransition.downloadingTerminal a b .Cancelled rfl⟩
          | failTerm j msg =>
              have hc : cur.isDownloading = true := hpre
              obtain ⟨a, b, rfl⟩ : ∃ a b, cur = .Downloading a b := by
                cases cur <;> simp [DownloadStatus.isDownloading] at hc
                exact ⟨_, _, rfl⟩
              right
              exact ⟨.Downloading a b, .Failed msg, hget3, hnew2,
                AllowedTransition.downloadingTerminal a b (.Failed msg) rfl⟩
          | complete j size =>
              have hc : cur.isDownloading = true := hpre
              obtain ⟨a, b, rfl⟩ : ∃ a b, cur = .Downloading a b := by
                cases cur <;> simp [DownloadStatus.isDownloading] at hc
                exact ⟨_, _, rfl⟩
              right
              exact ⟨.Downloading a b, .Complete, hget3, hnew2,
                AllowedTransition.downloadingTerminal a b .Complete rfl⟩
      · have hunch : mapGet (applyMut m sh).downloads id
            = mapGet sh.downloads id := by
          refine mapGet_applyMut_ne m sh id ?_
          rw [hkey]
          exact hid
        refine ⟨fun cur2 h hterm => ?_, Or.inl hunch⟩
        rw [hunch]
        exact h

/-- An app model whose download state still holds a finished previous
batch (id 5 Complete) and a nonzero `active_count`, about to submit a
new one-task batch for catalog index 0. -/
def cApp1 : AppModel :=
  { maps := [{ name := "m1", category := "easy", stars := 1, size := 10 }],
    selected_indices := [0],
    download_path := "dl",
    download_state :=
      { downloads := [(5, .Complete)],
        download_order := [5],
        active_count := 3,
        total_queued := 1,
        completed_count := 1,
        failed_count := 0,
        skipped_count := 0,
        cancelled_count := 0,
        total_bytes := 10,
        downloaded_bytes := 10 } }

/-- C1 counterexample: `download_selected` neither resets `active_count`
nor empties the status map, so after submitting a batch containing only
id 0 from a stale state, the map still holds an entry for id 5 and
`active_count` is still 3 — contradicting "the Status Store is reset to
empty ... every counter is reset, the status map contains exactly the
submitted ids". -/
theorem C1_counterexample :
    ¬ ((download_selected cApp1).1.download_state.active_count = 0 ∧
       mapGet (download_selected cApp1).1.download_state.downloads 5
         = none) := by
  decide

/-- C1 (amended): on a nonempty selection, `download_selected` spawns
the batch built from the catalog with a fresh cancellation token and
reinitializes the Status Store as the code does: `order`, `total_queued`,
`total_bytes` and `downloaded_bytes` are set from the batch, the
counters `completed`, `failed`, `skipped`, `cancelled` are reset to 0,
every submitted id is set to `Pending`, while `active_count` is left
unchanged and status-map entries of other ids survive. -/
theorem C1_download_selected_init (app : AppModel)
    (hne : app.selected_indices ≠ []) :
    download_selected app
      = ({ app with download_state :=
            initState (buildBatch app) app.download_state },
         buildBatch app, true) ∧
    (initState (buildBatch app) app.download_state).download_order
      = (buildBatch app).map TaskDesc.idx ∧
    (initState (buildBatch app) app.download_state).total_queued
      = (buildBatch app).length ∧
    (initState (buildBatch app) app.download_state).completed_count = 0 ∧
    (initState (buildBatch app) app.download_state).failed_count = 0 ∧
    (initState (buildBatch app) app.download_state).skipped_count = 0 ∧
    (initState (buildBatch app) app.download_state).cancelled_count = 0 ∧
    (initState (buildBatch app) app.download_state).downloaded_bytes = 0 ∧
    (initState (buildBatch app) app.download_state).total_bytes
      = ((buildBatch app).map TaskDesc.map_size).sum % u64Mod ∧
    (initState (buildBatch app) app.download_state).active_count
      = app.download_state.active_count ∧
    (∀ t ∈ buildBatch app,
      mapGet (initState (buildBatch app) app.download_state).downloads t.idx
        = some .Pending) ∧
    (∀ k, k ∉ (buildBatch app).map TaskDesc.idx →
      mapGet (initState (buildBatch app) app.download_state).downloads k
        = mapGet app.download_state.downloads k) := by
  obtain ⟨h1, h2, h3, h4, h5, h6, h7, h8, h9, h10⟩ :=
    initState_spec (buildBatch app) app.download_state
  have hE : app.selected_indices.isEmpty = false := by
    cases h : app.selected_indices with
    | nil => exact absurd h hne
    | cons a l => rfl
  refine ⟨?_, h1, h3, h4, h5, h6, h7, h9, h8, h2, ?_, ?_⟩
  · unfold download_selected
    rw [hE]
    rfl
  · intro t ht
    rw [h10 t.idx, if_pos (List.mem_map_of_mem TaskDesc.idx ht)]
  · intro k hk
    rw [h10 k, if_neg hk]

theorem C1_download_selected_init_witness :
    download_selected cApp1
      = ({ cApp1 with
           download_state :=
             initState (buildBatch cApp1) cApp1.download_state },
         buildBatch cApp1, true) :=
  (C1_download_selected_init cApp1 (by decide)).1

theorem streamCompleted_false_of_break {events : List StreamEvent}
    {e : StreamEvent} (h : firstBreak events = some e) :
    streamCompleted events = false := by
  induction events with
  | nil => cases h
  | cons a rest ih =>
      cases a with
      | chunk len => exact ih h
      | cancelled => rfl
      | chunkErr msg => rfl

theorem fold_stream_break (idx cl : Nat) :
    ∀ (events : List StreamEvent) (dl : Nat) (s : DownloadState),
      (firstBreak events = some .cancelled →
        mapGet (foldMuts (streamMuts idx cl dl events) s).downloads idx
          = some DownloadStatus.Cancelled ∧
        (foldMuts (streamMuts idx cl dl events) s).cancelled_count
          = s.cancelled_count + 1 ∧
        (foldMuts (streamMuts idx cl dl events) s).active_count
          = s.active_count - 1 ∧
        (foldMuts (streamMuts idx cl dl events) s).completed_count
          = s.completed_count ∧
        (foldMuts (streamMuts idx cl dl events) s).failed_count
          = s.failed_count ∧
        (foldMuts (streamMuts idx cl dl events) s).skipped_count
          = s.skipped_count ∧
        (foldMuts (streamMuts idx cl dl events) s).downloaded_bytes
          = s.downloaded_bytes) ∧
      (∀ msg, firstBreak events = some (.chunkErr msg) →
        mapGet (foldMuts (streamMuts idx cl dl events) s).downloads idx
          = some (DownloadStatus.Failed msg) ∧
        (foldMuts (streamMuts idx cl dl events) s).failed_count
          = s.failed_count + 1 ∧
        (foldMuts (streamMuts idx cl dl events) s).active_count
          = s.active_count - 1 ∧
        (foldMuts (streamMuts idx cl dl events) s).completed_count
          = s.completed_count ∧
        (foldMuts (streamMuts idx cl dl events) s).cancelled_count
          = s.cancelled_count ∧
        (foldMuts (streamMuts idx cl dl events) s).skipped_count
          = s.skipped_count ∧
        (foldMuts (streamMuts idx cl dl events) s).downloaded_bytes
          = s.downloaded_bytes) := by
  intro events
  induction events with
  | nil =>
      intro dl s
      constructor
      · intro h
        simp [firstBreak] at h
      · intro msg h
        simp [firstBreak] at h
  | cons e rest ih =>
      intro dl s
      cases e with
      | cancelled =>
          constructor
          · intro _
            exact ⟨mapGet_insert_self .., rfl, rfl, rfl, rfl, rfl, rfl⟩
          · intro msg h
            simp [firstBreak] at h
      | chunkErr m2 =>
          constructor
          · intro h
            simp [firstBreak] at h
          · intro msg h
            have hm : m2 = msg := by
              have h2 : StreamEvent.chunkErr m2 = StreamEvent.chunkErr msg :=
                Option.some.inj h
              injection h2
            subst hm
            exact ⟨mapGet_insert_self .., rfl, rfl, rfl, rfl, rfl, rfl⟩
      | chunk len =>
          have hrec := ih ((dl + len) % u64Mod)
            (applyMut (.progress idx ((dl + len) % u64Mod) cl) s)
          constructor
          · intro h
            obtain ⟨a1, a2, a3, a4, a5, a6, a7⟩ := hrec.1 h
            exact ⟨a1, a2, a3, a4, a5, a6, a7⟩
          · intro msg h
            obtain ⟨a1, a2, a3, a4, a5, a6, a7⟩ := hrec.2 msg h
            exact ⟨a1, a2, a3, a4, a5, a6, a7⟩

/-- C5: the worker writes nothing to the destination before the stream
has fully completed: the single `fs::write` attempt exists only on the
stream-completion path, and on cancellation (resp. a chunk error)
observed mid-stream the task becomes `Cancelled` (resp. `Failed`),
`active` is decremented back, byte totals are untouched, and no file is
written. -/
theorem C5_no_partial_write (t : TaskDesc) (env : WorkerEnv)
    (s : DownloadState) :
    (∀ d n, (workerEffects t env).fileWrite = some (d, n) →
      ∃ code cl events writeOk,
        env.http = HttpOutcome.response code cl events writeOk ∧
        isSuccessCode code = true ∧ streamCompleted events = true ∧
        d = t.dest ∧ n = streamBytes events) ∧
    (∀ code cl events writeOk,
      env.tokenCancelledAtStart = false →
      (t.skip_existing && env.destExists) = false →
      env.http = HttpOutcome.response code cl events writeOk →
      isSuccessCode code = true →
      firstBreak events = some .cancelled →
      mapGet (download_map t env s).downloads t.idx
          = some DownloadStatus.Cancelled ∧
        (download_map t env s).cancelled_count = s.cancelled_count + 1 ∧
        (download_map t env s).active_count = s.active_count ∧
        (download_map t env s).downloaded_bytes = s.downloaded_bytes ∧
        (workerEffects t env).fileWrite = none) ∧
    (∀ code cl events writeOk msg,
      env.tokenCancelledAtStart = false →
      (t.skip_existing && env.destExists) = false →
      env.http = HttpOutcome.response code cl events writeOk →
      isSuccessCode code = true →
      firstBreak events = some (.chunkErr msg) →
      mapGet (download_map t env s).downloads t.idx
          = some (DownloadStatus.Failed msg) ∧
        (download_map t env s).failed_count = s.failed_count + 1 ∧
        (download_map t env s).active_count = s.active_count ∧
        (download_map t env s).downloaded_bytes = s.downloaded_bytes ∧
        (workerEffects t env).fileWrite = none) := by
  refine ⟨?_, ?_, ?_⟩
  · intro d n hw
    unfold workerEffects at hw
    by_cases h1 : env.tokenCancelledAtStart = true
    · rw [if_pos h1] at hw
      simp at hw
    · rw [if_neg h1] at hw
      by_cases h2 : (t.skip_existing && env.destExists) = true
      · rw [if_pos h2] at hw
        simp at hw
      · rw [if_neg h2] at hw
        cases henv : env.http with
        | sendErr msg =>
            rw [henv] at hw
            simp at hw
        | response code cl events writeOk =>
            rw [henv] at hw
            dsimp only at hw
            by_cases hc : isSuccessCode code = true
            · rw [if_pos hc] at hw
              by_cases hcmp : streamCompleted events = true
              · rw [if_pos hcmp] at hw
                have hpair := Option.some.inj hw
                refine ⟨code, cl, events, writeOk, rfl, hc, hcmp, ?_, ?_⟩
                · exact (congrArg Prod.fst hpair).symm
                · exact (congrArg Prod.snd hpair).symm
              · rw [if_neg hcmp] at hw
                simp at hw
            · rw [if_neg hc] at hw
              simp at hw
  · intro code cl events writeOk h1 h2 hhttp hc hbrk
    have hcmp := streamCompleted_false_of_break hbrk
    have hwm : workerMuts t env
        = Mut.startDownloading t.idx :: streamMuts t.idx cl 0 events := by
      unfold workerMuts
      rw [if_neg (by rw [h1]; exact Bool.false_ne_true),
          if_neg (by rw [h2]; exact Bool.false_ne_true), hhttp]
      dsimp only
      rw [if_pos hc, hcmp]
      simp
    obtain ⟨a1, a2, a3, a4, a5, a6, a7⟩ :=
      (fold_stream_break t.idx cl events 0
        (applyMut (.startDownloading t.idx) s)).1 hbrk
    unfold download_map
    rw [hwm]
    refine ⟨a1, a2, a3, a7, ?_⟩
    unfold workerEffects
    rw [if_neg (by rw [h1]; exact Bool.false_ne_true),
        if_neg (by rw [h2]; exact Bool.false_ne_true), hhttp]
    dsimp only
    rw [if_pos hc, hcmp]
    simp
  · intro code cl events writeOk msg h1 h2 hhttp hc hbrk
    have hcmp := streamCompleted_false_of_break hbrk
    have hwm : workerMuts t env
        = Mut.startDownloading t.idx :: streamMuts t.idx cl 0 events := by
      unfold workerMuts
      rw [if_neg (by rw [h1]; exact Bool.false_ne_true),
          if_neg (by rw [h2]; exact Bool.false_ne_true), hhttp]
      dsimp only
      rw [if_pos hc, hcmp]
      simp
    obtain ⟨a1, a2, a3, a4, a5, a6, a7⟩ :=
      (fold_stream_break t.idx cl events 0
        (applyMut (.startDownloading t.idx) s)).2 msg hbrk
    unfold download_map
    rw [hwm]
    refine ⟨a1, a2, a3, a7, ?_⟩
    unfold workerEffects
    rw [if_neg (by rw [h1]; exact Bool.false_ne_true),
        if_neg (by rw [h2]; exact Bool.false_ne_true), hhttp]
    dsimp only
    rw [if_pos hc, hcmp]
    simp

/-- A skip-eligible task: `skip_if_exists` set and an existing
destination file. -/
def t7 : TaskDesc := ⟨0, "u", "d", 7, true⟩

/-- Environment in which the cancellation token is already raised when
the worker starts, and the destination file exists. -/
def env7 : WorkerEnv := ⟨true, true, .sendErr "unused"⟩

/-- A one-task batch state with id 0 Pending. -/
def s7 : DownloadState :=
  { DownloadState.initial with
    downloads := [(0, .Pending)], download_order := [0], total_queued := 1 }

/-- C7 counterexample: for a task with `skip_if_exists = true` and an
existing destination, the worker does NOT always set `Skipped` — the
cancellation check runs first (src/src/app/downloads.rs lines 24-32),
so with the token already raised the task ends `Cancelled`. -/
theorem C7_counterexample :
    ¬ (mapGet (download_map t7 env7 s7).downloads 0
        = some DownloadStatus.Skipped) := by
  decide

/-- C7 (amended): provided cancellation has not been observed before the
worker starts, a task with `skip_if_exists = true` whose destination
exists is set to `Skipped`, the skipped counter is incremented, its
expected size is attributed to `downloaded_bytes`, no network request is
issued, no file is written, and the task never enters `Downloading`. -/
theorem C7_skip_existing (t : TaskDesc) (env : WorkerEnv)
    (s : DownloadState) (hskip : t.skip_existing = true)
    (hex : env.destExists = true)
    (htok : env.tokenCancelledAtStart = false) :
    download_map t env s
      = { s with
            downloads := mapInsert s.downloads t.idx .Skipped,
            skipped_count := s.skipped_count + 1,
            downloaded_bytes :=
              (s.downloaded_bytes + t.map_size) % u64Mod } ∧
    (workerEffects t env).networkRequested = false ∧
    (workerEffects t env).fileWrite = none ∧
    workerMuts t env = [Mut.skip t.idx t.map_size] ∧
    (∀ m2 ∈ workerMuts t env, ∀ c dl tot,
      Mut.statusAfter m2 c ≠ DownloadStatus.Downloading dl tot) := by
  have hcond : (t.skip_existing && env.destExists) = true := by
    rw [hskip, hex]
    rfl
  have hwm : workerMuts t env = [Mut.skip t.idx t.map_size] := by
    unfold workerMuts
    rw [if_neg (by rw [htok]; exact Bool.false_ne_true), if_pos hcond]
  refine ⟨?_, ?_, ?_, hwm, ?_⟩
  · unfold download_map
    rw [hwm]
    rfl
  · unfold workerEffects
    rw [if_neg (by rw [htok]; exact Bool.false_ne_true), if_pos hcond]
  · unfold workerEffects
    rw [if_neg (by rw [htok]; exact Bool.false_ne_true), if_pos hcond]
  · intro m2 hm2 c dl tot
    rw [hwm] at hm2
    have hm : m2 = Mut.skip t.idx t.map_size := List.mem_singleton.mp hm2
    subst hm
    simp [Mut.statusAfter]

/-- Skip-eligible task, batch state and quiet environment exercising the
amended C7. -/
def env7b : WorkerEnv := ⟨false, true, .sendErr "unused"⟩

theorem C7_skip_existing_witness :
    download_map t7 env7b s7
      = { s7 with
            downloads := mapInsert s7.downloads 0 .Skipped,
            skipped_count := 1,
            downloaded_bytes := 7 % u64Mod } :=
  (C7_skip_existing t7 env7b s7 rfl rfl rfl).1

/-- A task and environment producing a non-2xx HTTP response. -/
def t8 : TaskDesc := ⟨0, "u", "d", 9, false⟩

/-- Environment returning HTTP 404 with an empty body stream. -/
def env8 : WorkerEnv := ⟨false, false, .response 404 0 [] true⟩

/-- One-task batch state for the C8 scenario. -/
def s8 : DownloadState :=
  { DownloadState.initial with
    downloads := [(0, .Pending)], download_order := [0], total_queued := 1 }

/-- C8 counterexample: the reason string for a 404 response is not
`"HTTP 404"` — `format!("HTTP {}", response.status())` renders the
status through its `Display`, which appends the canonical reason
phrase, producing `"HTTP 404 Not Found"`. -/
theorem C8_counterexample :
    ¬ (mapGet (download_map t8 env8 s8).downloads 0
        = some (DownloadStatus.Failed "HTTP 404")) := by
  decide

/-- C8 (amended): on a non-2xx response the worker sets the task to
`Failed` with reason `"HTTP "` followed by the status Display — the
numeric code, a space, and the canonical reason phrase — increments
`failed`, and releases `active`; cancellation is never reported through
the `Failed` variant: a cancellation observed at start or mid-stream
always yields `Cancelled`. -/
theorem C8_http_failure (t : TaskDesc) (env : WorkerEnv)
    (s : DownloadState) (code cl : Nat) (events : List StreamEvent)
    (writeOk : Bool)
    (htok : env.tokenCancelledAtStart = false)
    (hskip : (t.skip_existing && env.destExists) = false)
    (hhttp : env.http = .response code cl events writeOk)
    (hcode : isSuccessCode code = false) :
    mapGet (download_map t env s).downloads t.idx
      = some (.Failed ("HTTP " ++ statusDisplay code)) ∧
    (download_map t env s).failed_count = s.failed_count + 1 ∧
    (download_map t env s).active_count = s.active_count ∧
    statusDisplay code
      = toString code ++ " "
        ++ (canonicalReason code).getD "<unknown status code>" ∧
    (∀ (env2 : WorkerEnv) (s2 : DownloadState),
      env2.tokenCancelledAtStart = true →
      mapGet s2.downloads t.idx = some .Pending →
      mapGet (download_map t env2 s2).downloads t.idx
        = some DownloadStatus.Cancelled) ∧
    (∀ (env2 : WorkerEnv) (s2 : DownloadState) (c2 l2 : Nat)
        (ev2 : List StreamEvent) (w2 : Bool),
      env2.tokenCancelledAtStart = false →
      (t.skip_existing && env2.destExists) = false →
      env2.http = .response c2 l2 ev2 w2 →
      isSuccessCode c2 = true →
      firstBreak ev2 = some .cancelled →
      mapGet (download_map t env2 s2).downloads t.idx
        = some DownloadStatus.Cancelled) := by
  have hwm : workerMuts t env
      = [Mut.startDownloading t.idx,
         Mut.failTerm t.idx ("HTTP " ++ statusDisplay code)] := by
    unfold workerMuts
    rw [if_neg (by rw [htok]; exact Bool.false_ne_true),
        if_neg (by rw [hskip]; exact Bool.false_ne_true), hhttp]
    dsimp only
    rw [if_neg (by rw [hcode]; exact Bool.false_ne_true)]
  refine ⟨?_, ?_, ?_, rfl, ?_, ?_⟩
  · unfold download_map
    rw [hwm]
    exact mapGet_insert_self ..
  · unfold download_map
    rw [hwm]
    rfl
  · unfold download_map
    rw [hwm]
    rfl
  · intro env2 s2 htok2 hpend
    have hwm2 : workerMuts t env2 = [Mut.cancelIfPending t.idx] := by
      unfold workerMuts
      rw [if_pos htok2]
    unfold download_map
    rw [hwm2]
    show mapGet (applyMut (Mut.cancelIfPending t.idx) s2).downloads t.idx = _
    simp only [applyMut, if_pos hpend]
    exact mapGet_insert_self ..
  · intro env2 s2 c2 l2 ev2 w2 h1 h2 hh hc hbrk
    have hcmp := streamCompleted_false_of_break hbrk
    have hwm2 : workerMuts t env2
        = Mut.startDownloading t.idx :: streamMuts t.idx l2 0 ev2 := by
      unfold workerMuts
      rw [if_neg (by rw [h1]; exact Bool.false_ne_true),
          if_neg (by rw [h2]; exact Bool.false_ne_true), hh]
      dsimp only
      rw [if_pos hc, hcmp]
      simp
    unfold download_map
    rw [hwm2]
    exact ((fold_stream_break t.idx l2 ev2 0
      (applyMut (.startDownloading t.idx) s2)).1 hbrk).1

theorem C8_http_failure_witness :
    mapGet (download_map t8 env8 s8).downloads 0
      = some (DownloadStatus.Failed "HTTP 404 Not Found") :=
  (C8_http_failure t8 env8 s8 404 0 [] true rfl rfl rfl rfl).1

/-- The ids of the last batch whose current status is `Failed`, in
submission order. -/
def failedIds (s : DownloadState) : List Nat :=
  s.download_order.filter (fun id => isFailedOpt (mapGet s.downloads id))

theorem buildRetryBatch_idxs (app : AppModel)
    (hcat : ∀ id ∈ app.download_state.download_order,
      isFailedOpt (mapGet app.download_state.downloads id) = true →
      id < app.maps.length) :
    (buildRetryBatch app).map TaskDesc.idx
      = failedIds app.download_state := by
  unfold buildRetryBatch failedIds
  have h : ∀ (l : List Nat),
      (∀ id ∈ l,
        isFailedOpt (mapGet app.download_state.downloads id) = true →
        id < app.maps.length) →
      (l.filterMap (fun idx =>
        if isFailedOpt (mapGet app.download_state.downloads idx) then
          (app.maps.get? idx).map (fun m =>
            (⟨idx, get_map_url m, destPath app.download_path m.name, m.size,
              false⟩ : TaskDesc))
        else none)).map TaskDesc.idx
      = l.filter (fun id =>
          isFailedOpt (mapGet app.download_state.downloads id)) := by
    intro l
    induction l with
    | nil => intro _; rfl
    | cons a rest ih =>
        intro hc
        have hrest := ih (fun id hid => hc id (List.mem_cons_of_mem a hid))
        rw [List.filterMap_cons, List.filter_cons]
        by_cases hf : isFailedOpt (mapGet app.download_state.downloads a)
          = true
        · have hlt : a < app.maps.length :=
            hc a (List.mem_cons_self a rest) hf
          rw [if_pos hf, if_pos hf, List.get?_eq_get hlt, Option.map_some']
          dsimp only
          rw [List.map_cons, hrest]
        · rw [if_neg hf, if_neg hf]
          exact hrest
  exact h app.download_state.download_order hcat

theorem buildRetryBatch_skip (app : AppModel) :
    ∀ t2 ∈ buildRetryBatch app, t2.skip_existing = false := by
  intro t2 ht
  obtain ⟨a, _, hf⟩ := List.mem_filterMap.mp ht
  by_cases hfa : isFailedOpt (mapGet app.download_state.downloads a) = true
  · rw [if_pos hfa] at hf
    obtain ⟨m, _, hm⟩ := Option.map_eq_some'.mp hf
    rw [← hm]
  · rw [if_neg hfa] at hf
    cases hf

theorem buildRetryBatch_sublist (app : AppModel) :
    ((buildRetryBatch app).map TaskDesc.idx).Sublist
      app.download_state.download_order := by
  unfold buildRetryBatch
  generalize app.download_state.download_order = l
  induction l with
  | nil => simp
  | cons a rest ih =>
      rw [List.filterMap_cons]
      by_cases hf : isFailedOpt (mapGet app.download_state.downloads a)
        = true
      · rw [if_pos hf]
        cases hg : app.maps.get? a with
        | none =>
            rw [Option.map_none']
            dsimp only
            exact ih.cons a
        | some m =>
            rw [Option.map_some']
            dsimp only
            rw [List.map_cons]
            exact ih.cons₂ a
      · rw [if_neg hf]
        exact ih.cons a

/-- C6: `RetryFailed` selects exactly the ids currently `Failed`,
resubmits exactly those with `skip_if_exists = false` and a fresh
cancellation token, resets exactly those ids to `Pending` with the
failed counter reduced by the retried count, leaves every other entry
untouched, and is a no-op when no task is `Failed`. -/
theorem C6_retry_scope (app : AppModel)
    (hcat : ∀ id ∈ app.download_state.download_order,
      isFailedOpt (mapGet app.download_state.downloads id) = true →
      id < app.maps.length)
    (hcnt : app.download_state.failed_count
      = (failedIds app.download_state).length) :
    ((buildRetryBatch app).map TaskDesc.idx = failedIds app.download_state) ∧
    (∀ t2 ∈ buildRetryBatch app, t2.skip_existing = false) ∧
    (failedIds app.download_state = [] →
      retry_failed_downloads app = (app, [], false)) ∧
    (failedIds app.download_state ≠ [] →
      (retry_failed_downloads app).2.2 = true ∧
      (retry_failed_downloads app).2.1 = buildRetryBatch app ∧
      (retry_failed_downloads app).1.download_state.failed_count
        = app.download_state.failed_count
          - (failedIds app.download_state).length ∧
      (∀ id ∈ failedIds app.download_state,
        mapGet (retry_failed_downloads app).1.download_state.downloads id
          = some DownloadStatus.Pending) ∧
      (∀ k, k ∉ failedIds app.download_state →
        mapGet (retry_failed_downloads app).1.download_state.downloads k
          = mapGet app.download_state.downloads k)) := by
  have hidx := buildRetryBatch_idxs app hcat
  refine ⟨hidx, buildRetryBatch_skip app, ?_, ?_⟩
  · intro hnil
    have hb : buildRetryBatch app = [] := by
      cases hbb : buildRetryBatch app with
      | nil => rfl
      | cons x xs =>
          rw [hbb] at hidx
          rw [hnil] at hidx
          cases hidx
    unfold retry_failed_downloads
    rw [hb]
    rfl
  · intro hne
    have hb : (buildRetryBatch app).isEmpty = false := by
      cases hbb : buildRetryBatch app with
      | nil =>
          rw [hbb] at hidx
          exact absurd hidx.symm (by simpa using hne)
      | cons x xs => rfl
    obtain ⟨g1, g2, g3, g4, g5, g6, g7, g8, g9, g10⟩ :=
      foldPending_spec (buildRetryBatch app)
        { app.download_state with failed_count := 0 }
    unfold retry_failed_downloads
    rw [if_neg (by rw [hb]; exact Bool.false_ne_true)]
    refine ⟨rfl, rfl, ?_, ?_, ?_⟩
    · rw [g5]
      show (0 : Nat) = _
      omega
    · intro id hid
      rw [g10 id, if_pos ?_]
      rw [hidx]
      exact hid
    · intro k hk
      rw [g10 k, if_neg ?_]
      rw [hidx]
      exact hk

/-- Concrete app with one Complete and one Failed task (ids 0 and 1),
exercising the retry path. -/
def cApp6 : AppModel :=
  { maps := [{ name := "m1", category := "easy", stars := 1, size := 10 },
             { name := "m2", category := "hard", stars := 3, size := 20 }],
    selected_indices := [0, 1],
    download_path := "dl",
    download_state :=
      { downloads := [(0, .Complete),
                      (1, .Failed "HTTP 500 Internal Server Error")],
        download_order := [0, 1],
        active_count := 0,
        total_queued := 2,
        completed_count := 1,
        failed_count := 1,
        skipped_count := 0,
        cancelled_count := 0,
        total_bytes := 30,
        downloaded_bytes := 10 } }

theorem C6_retry_scope_witness :
    (buildRetryBatch cApp6).map TaskDesc.idx
      = failedIds cApp6.download_state :=
  (C6_retry_scope cApp6 (by decide) (by decide)).1

/-- C9: `retry_failed_downloads` leaves `order`, `total_queued`,
`completed`, `skipped`, `cancelled`, `total_bytes` and
`downloaded_bytes` unchanged, and the retry sub-batch is built by
scanning `download_order`, so its ids form a subsequence of the original
submission order. -/
theorem C9_retry_frame (app : AppModel) :
    (retry_failed_downloads app).1.download_state.download_order
      = app.download_state.download_order ∧
    (retry_failed_downloads app).1.download_state.total_queued
      = app.download_state.total_queued ∧
    (retry_failed_downloads app).1.download_state.completed_count
      = app.download_state.completed_count ∧
    (retry_failed_downloads app).1.download_state.skipped_count
      = app.download_state.skipped_count ∧
    (retry_failed_downloads app).1.download_state.cancelled_count
      = app.download_state.cancelled_count ∧
    (retry_failed_downloads app).1.download_state.total_bytes
      = app.download_state.total_bytes ∧
    (retry_failed_downloads app).1.download_state.downloaded_bytes
      = app.download_state.downloaded_bytes ∧
    (retry_failed_downloads app).2.1 = buildRetryBatch app ∧
    ((buildRetryBatch app).map TaskDesc.idx).Sublist
      app.download_state.download_order := by
  unfold retry_failed_downloads
  by_cases hb : (buildRetryBatch app).isEmpty = true
  · rw [if_pos hb]
    refine ⟨rfl, rfl, rfl, rfl, rfl, rfl, rfl, ?_,
      buildRetryBatch_sublist app⟩
    have : buildRetryBatch app = [] := by
      cases hbb : buildRetryBatch app with
      | nil => rfl
      | cons x xs =>
          rw [hbb] at hb
          cases hb
    rw [this]
  · rw [if_neg hb]
    obtain ⟨g1, g2, g3, g4, g5, g6, g7, g8, g9, g10⟩ :=
      foldPending_spec (buildRetryBatch app)
        { app.download_state with failed_count := 0 }
    exact ⟨g1, g3, g4, g6, g7, g8, g9, rfl, buildRetryBatch_sublist app⟩

/-- C10: the thumbnail prefetch spawns a fetch task only for names
whose thumbnail file does not already exist (cached names get no task
and hence no request), and a fetched thumbnail is written to the cache
only when the response status is 2xx and the body was read. -/
theorem C10_thumbnail_prefetch (mapNames : List String)
    (fileExists : String → Bool) (cacheDir : String) :
    (∀ name, fileExists (thumbPath cacheDir name) = true →
      name ∉ prefetchTasks mapNames fileExists cacheDir) ∧
    (∀ name ∈ prefetchTasks mapNames fileExists cacheDir,
      fileExists (thumbPath cacheDir name) = false) ∧
    (∀ name env d n, thumbFetchWrite cacheDir name env = some (d, n) →
      ∃ code len, env.sendResult = some (code, some len) ∧
        isSuccessCode code = true ∧ d = thumbPath cacheDir name ∧
        n = len) := by
  refine ⟨?_, ?_, ?_⟩
  · intro name h hmem
    have hcond := List.of_mem_filter hmem
    rw [h] at hcond
    cases hcond
  · intro name hmem
    have hcond := List.of_mem_filter hmem
    cases hfe : fileExists (thumbPath cacheDir name) with
    | false => rfl
    | true =>
        rw [hfe] at hcond
        cases hcond
  · intro name env d n hw
    unfold thumbFetchWrite at hw
    cases hs : env.sendResult with
    | none =>
        rw [hs] at hw
        cases hw
    | some pr =>
        obtain ⟨code, bytesRes⟩ := pr
        rw [hs] at hw
        dsimp only at hw
        by_cases hc : isSuccessCode code = true
        · rw [if_pos hc] at hw
          cases bytesRes with
          | none => cases hw
          | some len =>
              have hp := Option.some.inj hw
              exact ⟨code, len, rfl, hc, (congrArg Prod.fst hp).symm,
                (congrArg Prod.snd hp).symm⟩
        · rw [if_neg hc] at hw
          cases hw

theorem C10_thumbnail_prefetch_witness :
    "alpha" ∉ prefetchTasks ["alpha", "beta"]
      (fun p => p == thumbPath "cache" "alpha") "cache" :=
  (C10_thumbnail_prefetch ["alpha", "beta"]
    (fun p => p == thumbPath "cache" "alpha") "cache").1 "alpha" (by decide)

/-- A concrete one-task batch used to exercise the concurrency
theorems. -/
def tW : TaskDesc := ⟨0, "uw", "dw", 3, true⟩

/-- A quiet environment completing in one chunk. -/
def envW : WorkerEnv := ⟨false, false, .response 200 3 [.chunk 3] true⟩

/-- Initial system state of the one-task batch. -/
def sysW : SysState :=
  sysInit downloadConcurrencyLimit [tW] [envW] DownloadState.initial

/-- The single worker of `sysW`. -/
def wW : WorkerSt := ⟨tW, workerMuts tW envW, .notStarted⟩

/-- State of `sysW` after its worker acquires a permit. -/
def sysW2 : SysState :=
  ⟨[] ++ { wW with phase := .running } :: [], downloadConcurrencyLimit - 1,
    initState [tW] DownloadState.initial⟩

theorem C2_terminal_finality_witness :
    mapGet sysW2.shared.downloads 0 = mapGet sysW.shared.downloads 0 ∨
    ∃ a b, mapGet sysW.shared.downloads 0 = some a ∧
      mapGet sysW2.shared.downloads 0 = some b ∧ AllowedTransition a b := by
  have hstep : SysStep sysW sysW2 :=
    SysStep.acquire [] [] wW downloadConcurrencyLimit
      (initState [tW] DownloadState.initial) rfl (by decide)
  exact (C2_terminal_finality [tW] [envW] DownloadState.initial sysW sysW2 0
    (by decide) (by decide) (by decide) rfl SysReach.refl hstep).2

theorem C3_aggregate_consistency_witness :
    sysW.shared.completed_count + sysW.shared.failed_count
      + sysW.shared.skipped_count + sysW.shared.cancelled_count
      + sysW.shared.active_count
      + cnt sysW.shared.downloads sysW.shared.download_order
          DownloadStatus.isPending
      = sysW.shared.total_queued ∧
    sysW.shared.downloaded_bytes ≤ sysW.shared.total_bytes :=
  C3_aggregate_consistency [tW] [envW] DownloadState.initial sysW
    (by decide) (by decide) (by decide) rfl SysReach.refl

theorem C4_bounded_concurrency_witness :
    cnt sysW.shared.downloads sysW.shared.download_order
      DownloadStatus.isDownloading ≤ downloadConcurrencyLimit ∧
    downloadConcurrencyLimit = 4 ∧
    (thumbInit 5).running ≤ thumbnailConcurrencyLimit ∧
    thumbnailConcurrencyLimit = 8 :=
  C4_bounded_concurrency [tW] [envW] DownloadState.initial sysW 5
    (thumbInit 5) (by decide) (by decide) (by decide) rfl SysReach.refl
    ThumbReach.refl

/-- Task, environment and state for the C5 mid-stream cancellation
scenario: one chunk arrives, then the token fires. -/
def t5 : TaskDesc := ⟨0, "u5", "d5", 10, false⟩

/-- Environment delivering one chunk and then a cancellation. -/
def env5 : WorkerEnv :=
  ⟨false, false, .response 200 10 [.chunk 4, .cancelled] true⟩

/-- One-task batch state for the C5 scenario. -/
def s5 : DownloadState :=
  { DownloadState.initial with
    downloads := [(0, .Pending)], download_order := [0], total_queued := 1 }

theorem C5_no_partial_write_witness :
    mapGet (download_map t5 env5 s5).downloads 0
      = some DownloadStatus.Cancelled ∧
    (workerEffects t5 env5).fileWrite = none := by
  have h := (C5_no_partial_write t5 env5 s5).2.1 200 10
    [.chunk 4, .cancelled] true rfl rfl rfl rfl rfl
  exact ⟨h.1, h.2.2.2.2⟩

end GoresDL
